import Mathlib

/-!
Shallow embedding, in Lean 4, of the data-preparation and model-evaluation
toolkit of the `kaggle-regression-lab` repository, together with proofs of
the behavioural claims about it.

The repository's tables are pandas `DataFrame`s; here a `Table` is an ordered
list of named, typed columns whose cells may be missing.  Numbers are modelled
by `ℚ` (the repository's float arithmetic has no overflow-relevant behaviour
in the claims considered; square roots, the one irrational operation, are
modelled by `Real.sqrt` on top of the rational core).  Library calls the
source makes (scikit-learn imputers/encoders/metrics, pandas CSV I/O and
`get_dummies`) are embedded by their documented semantics, since the source
delegates to them directly.
-/

/-- A cell value of a table: a number or a piece of text. -/
inductive Val where
  | num (q : ℚ)
  | str (s : String)
deriving DecidableEq, Repr

/-- Declared pandas dtype of a column, as used by `select_dtypes` in the
source (`int64`, `float64`, `object`, `category`). -/
inductive Dtype where
  | int64
  | float64
  | obj
  | cat
deriving DecidableEq, Repr

/-- A named column: declared dtype plus the list of cells, `none` meaning a
missing value (pandas `NaN`). -/
structure Col where
  name : String
  dtype : Dtype
  values : List (Option Val)
deriving DecidableEq, Repr

/-- A table (pandas `DataFrame`): an ordered list of columns. -/
structure Table where
  cols : List Col
deriving DecidableEq, Repr

/-- Number of rows, `len(df)` in the source: the (shared) length of the
columns' cell lists. -/
def Table.nrows (df : Table) : ℕ :=
  match df.cols with
  | [] => 0
  | c :: _ => c.values.length

/-- The pandas invariant that every column has the same row count. -/
def Table.wellformed (df : Table) : Prop :=
  ∀ c ∈ df.cols, c.values.length = df.nrows

instance : DecidablePred Table.wellformed := by
  intro df
  unfold Table.wellformed
  infer_instance

/-- Whether a dtype is selected by `select_dtypes(include=['int64','float64'])`. -/
def Dtype.isNumeric : Dtype → Bool
  | .int64 => true
  | .float64 => true
  | _ => false

/-- Whether a dtype is selected by `select_dtypes(include=['object','category'])`. -/
def Dtype.isCategorical : Dtype → Bool
  | .obj => true
  | .cat => true
  | _ => false

/-! ## Evaluator (`src/utils/evaluation.py`) -/

/-- Arithmetic mean of a list of rationals (`np.mean`; division by zero only
arises on empty input, which `evaluate_model` rejects). -/
def listMean (l : List ℚ) : ℚ := l.sum / l.length

/-- `sklearn.metrics.mean_squared_error`: mean of squared differences. -/
def mean_squared_error (y_true y_pred : List ℚ) : ℚ :=
  listMean (List.zipWith (fun a b => (a - b) ^ 2) y_true y_pred)

/-- `sklearn.metrics.mean_absolute_error`: mean of absolute differences. -/
def mean_absolute_error (y_true y_pred : List ℚ) : ℚ :=
  listMean (List.zipWith (fun a b => |a - b|) y_true y_pred)

/-- Residual sum of squares, `SSres = Σ (yᵢ − ŷᵢ)²`. -/
def ssRes (y_true y_pred : List ℚ) : ℚ :=
  (List.zipWith (fun a b => (a - b) ^ 2) y_true y_pred).sum

/-- Total sum of squares, `SStot = Σ (yᵢ − mean y)²`. -/
def ssTot (y_true : List ℚ) : ℚ :=
  (y_true.map (fun a => (a - listMean y_true) ^ 2)).sum

/-- Value of the coefficient of determination as scikit-learn reports it:
either a finite number or the floating-point sentinel `NaN`. -/
inductive RScore where
  | num (q : ℚ)
  | nan
deriving DecidableEq, Repr

/-- `sklearn.metrics.r2_score` with its default `force_finite=True`:
`NaN` for fewer than two samples; otherwise `1 - SSres/SStot` when both sums
are nonzero, `0.0` when only `SStot` is zero, and `1.0` when `SSres` is zero
(perfect predictions). -/
def r2_score (y_true y_pred : List ℚ) : RScore :=
  if y_true.length < 2 then .nan
  else
    let num := ssRes y_true y_pred
    let den := ssTot y_true
    if den ≠ 0 ∧ num ≠ 0 then .num (1 - num / den)
    else if num ≠ 0 then .num 0
    else .num 1

/-- The metrics mapping returned by `evaluate_model` (the RMSE entry, an
irrational square root, is kept alongside as `rmseVal` below). -/
structure Metrics where
  MSE : ℚ
  MAE : ℚ
  R2 : RScore
deriving DecidableEq, Repr

/-- `evaluate_model` of `src/utils/evaluation.py`: computes MSE, RMSE, MAE
and R².  scikit-learn raises on mismatched or empty inputs, modelled by
`Except.error`; the printing side effects carry no information and are
omitted. -/
def evaluate_model (y_true y_pred : List ℚ) : Except String Metrics :=
  if y_true.length ≠ y_pred.length then .error "inconsistent numbers of samples"
  else if y_true.length = 0 then .error "found array with 0 samples"
  else .ok { MSE := mean_squared_error y_true y_pred
             MAE := mean_absolute_error y_true y_pred
             R2 := r2_score y_true y_pred }

/-- The RMSE entry of `evaluate_model`: `np.sqrt(mse)`. -/
noncomputable def rmseVal (y_true y_pred : List ℚ) : ℝ :=
  Real.sqrt ((mean_squared_error y_true y_pred : ℚ) : ℝ)

/-! ### Helper lemmas about sums of constant lists -/

theorem list_sum_const {c : ℚ} : ∀ {l : List ℚ}, (∀ x ∈ l, x = c) → l.sum = l.length * c := by
  intro l
  induction l with
  | nil => simp
  | cons a t ih =>
    intro h
    have ha := h a (by simp)
    have ht : ∀ x ∈ t, x = c := fun x hx => h x (List.mem_cons_of_mem _ hx)
    simp [ha, ih ht]
    ring

theorem ssTot_const {c : ℚ} {l : List ℚ} (h : ∀ x ∈ l, x = c) : ssTot l = 0 := by
  rcases List.eq_nil_or_concat l with rfl | hcat
  · simp [ssTot]
  · have hmean : listMean l = c := by
      have hne : l.length ≠ 0 := by
        obtain ⟨L, b, rfl⟩ := hcat
        simp
      unfold listMean
      rw [list_sum_const h]
      field_simp
    unfold ssTot
    apply List.sum_eq_zero
    intro x hx
    simp only [List.mem_map] at hx
    obtain ⟨a, ha, rfl⟩ := hx
    rw [h a ha, hmean]
    ring

theorem ssTot_singleton (a : ℚ) : ssTot [a] = 0 := by
  simp [ssTot, listMean]

/-- Claim C3: `evaluate_model` returns MSE = mean of squared differences,
MAE = mean of absolute differences, RMSE = √MSE, and — whenever `SStot ≠ 0`,
the regime in which the spec's formula is defined — R² = 1 − SSres/SStot; in
particular, on true = [3, −0.5, 2, 7] and pred = [2.5, 0, 2, 8] it returns
MSE = 0.375, MAE = 0.5, R² = 443/467 (= 0.9486 to four decimal places) and
RMSE = √0.375 (= 0.6124 to four decimal places). -/
theorem evaluate_model_metrics_contract :
    (∀ y_true y_pred m, evaluate_model y_true y_pred = .ok m →
      m.MSE = listMean (List.zipWith (fun a b => (a - b) ^ 2) y_true y_pred) ∧
      m.MAE = listMean (List.zipWith (fun a b => |a - b|) y_true y_pred) ∧
      rmseVal y_true y_pred = Real.sqrt ((m.MSE : ℚ) : ℝ) ∧
      (ssTot y_true ≠ 0 → m.R2 = .num (1 - ssRes y_true y_pred / ssTot y_true))) ∧
    evaluate_model [3, -1/2, 2, 7] [5/2, 0, 2, 8] = .ok ⟨3/8, 1/2, .num (443/467)⟩ ∧
    ((61235:ℝ)/100000 ≤ rmseVal [3, -1/2, 2, 7] [5/2, 0, 2, 8] ∧
      rmseVal [3, -1/2, 2, 7] [5/2, 0, 2, 8] < (61245:ℝ)/100000) ∧
    ((94855:ℚ)/100000 ≤ 443/467 ∧ (443:ℚ)/467 < 94865/100000) := by
  refine ⟨?_, ?_, ?_, by norm_num, by norm_num⟩
  · intro y_true y_pred m h
    unfold evaluate_model at h
    split_ifs at h with h1 h2
    have hm := Except.ok.inj h
    subst hm
    refine ⟨rfl, rfl, rfl, ?_⟩
    intro hss
    have hlen2 : ¬ y_true.length < 2 := by
      intro hlt
      have h1' : y_true.length = 1 := by omega
      obtain ⟨a, rfl⟩ := List.length_eq_one.mp h1'
      exact hss (ssTot_singleton a)
    unfold r2_score
    simp only [hlen2, if_false]
    split_ifs with hc hnum
    · rfl
    · push_neg at hc
      rw [hc hss] at hnum
      exact absurd rfl hnum
    · push_neg at hc
      rw [hc hss]
      simp
  · simp [evaluate_model, mean_squared_error, mean_absolute_error, r2_score,
      ssRes, ssTot, listMean]
    norm_num [abs, max_def]
  · have hmse : mean_squared_error [3, -1/2, 2, 7] [5/2, 0, 2, 8] = 3/8 := by
      simp [mean_squared_error, listMean]
      norm_num
    unfold rmseVal
    rw [hmse]
    have hc : (((3/8 : ℚ)) : ℝ) = 3/8 := by norm_num
    rw [hc]
    constructor
    · exact (Real.le_sqrt' (by norm_num)).mpr (by norm_num)
    · exact (Real.sqrt_lt' (by norm_num)).mpr (by norm_num)

/-- Witness for claim C3: the universally quantified contract instantiated at
the spec's metrics scenario. -/
theorem evaluate_model_metrics_contract_witness :
    (⟨3/8, 1/2, .num (443/467)⟩ : Metrics).MSE =
      listMean (List.zipWith (fun a b => (a - b) ^ 2) [3, -1/2, 2, 7] [5/2, 0, 2, 8]) ∧
    (⟨3/8, 1/2, .num (443/467)⟩ : Metrics).MAE =
      listMean (List.zipWith (fun a b => |a - b|) [3, -1/2, 2, 7] [5/2, 0, 2, 8]) ∧
    rmseVal [3, -1/2, 2, 7] [5/2, 0, 2, 8] =
      Real.sqrt (((⟨3/8, 1/2, .num (443/467)⟩ : Metrics).MSE : ℚ) : ℝ) ∧
    (ssTot [3, -1/2, 2, 7] ≠ 0 →
      (⟨3/8, 1/2, .num (443/467)⟩ : Metrics).R2 =
        .num (1 - ssRes [3, -1/2, 2, 7] [5/2, 0, 2, 8] / ssTot [3, -1/2, 2, 7])) :=
  evaluate_model_metrics_contract.1 _ _ _ evaluate_model_metrics_contract.2.1

/-- Claim C4 counterexample: with constant true values [2, 2] (so SStot = 0)
and imperfect predictions [1, 3], `evaluate_model` does not return the NaN
sentinel for R²: scikit-learn's `r2_score` (default `force_finite=True`)
returns 0.0 there, so the claim's "R² entry equal to the sentinel NaN" fails. -/
theorem evaluate_model_zero_variance_cex :
    evaluate_model [2, 2] [1, 3] = .ok ⟨1, 1, .num 0⟩ ∧
    ssTot [2, 2] = 0 ∧ RScore.num 0 ≠ RScore.nan := by
  refine ⟨?_, by simp [ssTot, listMean], by simp⟩
  simp [evaluate_model, mean_squared_error, mean_absolute_error, r2_score,
    ssRes, ssTot, listMean]
  norm_num [abs, max_def]

/-- Claim C4 (amended): for equal-length sequences of at least two samples
with all true values equal (SStot = 0), `evaluate_model` does not raise; its
R² entry is the finite sentinel 0.0 (or 1.0 when the predictions are exactly
the true values), never NaN. -/
theorem evaluate_model_zero_variance_r2 (y_true y_pred : List ℚ) (c : ℚ)
    (hlen : y_true.length = y_pred.length) (h2 : 2 ≤ y_true.length)
    (hconst : ∀ x ∈ y_true, x = c) :
    evaluate_model y_true y_pred =
      .ok ⟨mean_squared_error y_true y_pred, mean_absolute_error y_true y_pred,
           if ssRes y_true y_pred = 0 then RScore.num 1 else RScore.num 0⟩ ∧
    (if ssRes y_true y_pred = 0 then RScore.num 1 else RScore.num 0) ≠ RScore.nan := by
  have hden := ssTot_const hconst
  constructor
  · unfold evaluate_model
    rw [if_neg (by omega), if_neg (by omega)]
    have hr2 : r2_score y_true y_pred =
        if ssRes y_true y_pred = 0 then RScore.num 1 else RScore.num 0 := by
      unfold r2_score
      rw [if_neg (by omega)]
      simp only [hden]
      rw [if_neg (by simp : ¬((0:ℚ) ≠ 0 ∧ ssRes y_true y_pred ≠ 0))]
      by_cases hres : ssRes y_true y_pred = 0
      · rw [if_neg (fun hh => hh hres), if_pos hres]
      · rw [if_pos hres, if_neg hres]
    rw [hr2]
  · split_ifs <;> simp

/-- Witness for claim C4 (amended): constant true values [5, 5, 5] with
imperfect predictions [5, 5, 4] give R² = 0.0, not NaN, without raising. -/
theorem evaluate_model_zero_variance_r2_witness :
    evaluate_model [5, 5, 5] [5, 5, 4] =
      .ok ⟨mean_squared_error [5, 5, 5] [5, 5, 4], mean_absolute_error [5, 5, 5] [5, 5, 4],
           if ssRes [5, 5, 5] [5, 5, 4] = 0 then RScore.num 1 else RScore.num 0⟩ ∧
    (if ssRes [5, 5, 5] [5, 5, 4] = 0 then RScore.num 1 else RScore.num 0) ≠ RScore.nan :=
  evaluate_model_zero_variance_r2 [5, 5, 5] [5, 5, 4] 5 (by simp) (by simp) (by simp)

/-! ## Column classifier (`preprocess_data`, `src/utils/data_processing.py`) -/

/-- Number of missing entries of a column, `df[col].isnull().sum()`. -/
def countNone (l : List (Option Val)) : ℕ := (l.filter (fun v => v.isNone)).length

/-- Per-column missing fraction, `df.isnull().sum() / len(df)`. -/
def missingFrac (df : Table) (c : Col) : ℚ := (countNone c.values : ℚ) / (df.nrows : ℚ)

/-- `missing_values[missing_values > missing_threshold].index.tolist()`:
names of the columns whose missing fraction strictly exceeds the threshold. -/
def highMissingNames (df : Table) (thr : ℚ) : List String :=
  (df.cols.filter (fun c => thr < missingFrac df c)).map Col.name

/-- Lines 54-61 of `preprocess_data`: dtype-based classification of column
names into numeric and categorical feature lists, then removal of the target
name from whichever list contains it.  Python's `list.remove` removes the
first occurrence, modelled by `List.erase`; the truthiness guard
`if target_column and ...` makes an empty-string target act like `None`. -/
def classifyFeatures (df : Table) (target_column : Option String) : List String × List String :=
  let numeric0 := (df.cols.filter (fun c => c.dtype.isNumeric)).map Col.name
  let categorical0 := (df.cols.filter (fun c => c.dtype.isCategorical)).map Col.name
  match target_column with
  | none => (numeric0, categorical0)
  | some t =>
    if t ≠ "" ∧ t ∈ numeric0 then (numeric0.erase t, categorical0)
    else if t ≠ "" ∧ t ∈ categorical0 then (numeric0, categorical0.erase t)
    else (numeric0, categorical0)

/-- `preprocess_data` of `src/utils/data_processing.py`: classifies columns
by dtype into numeric and categorical feature-name lists, removes the target
name from whichever list contains it (the Python guard `if target_column and
...` skips removal for an empty-string target), optionally drops columns
whose missing fraction strictly exceeds the threshold, and re-filters the
name lists against the surviving columns.  The input table is copied, never
mutated. -/
def preprocess_data (df : Table) (target_column : Option String)
    (drop_high_missing : Bool) (missing_threshold : ℚ) :
    Table × List String × List String :=
  let fl := classifyFeatures df target_column
  if drop_high_missing then
    let columns_to_drop := highMissingNames df missing_threshold
    let cols2 := df.cols.filter (fun c => c.name ∉ columns_to_drop)
    (⟨cols2⟩, fl.1.filter (fun n => n ∈ cols2.map Col.name),
              fl.2.filter (fun n => n ∈ cols2.map Col.name))
  else (df, fl.1, fl.2)

theorem mem_preprocess_keep (df : Table) (target : Option String) (t : ℚ)
    (hnodup : (df.cols.map Col.name).Nodup) (c : Col) (hc : c ∈ df.cols) :
    c ∈ (preprocess_data df target true t).1.cols ↔ missingFrac df c ≤ t := by
  show c ∈ df.cols.filter _ ↔ _
  rw [List.mem_filter]
  constructor
  · rintro ⟨h1, h2⟩
    simp only [decide_eq_true_eq] at h2
    by_contra hgt
    push_neg at hgt
    refine h2 (List.mem_map.mpr ⟨c, List.mem_filter.mpr ⟨hc, by simp [hgt]⟩, rfl⟩)
  · intro hle
    refine ⟨hc, ?_⟩
    simp only [decide_eq_true_eq]
    intro hmem
    obtain ⟨c', hc', hname⟩ := List.mem_map.mp hmem
    have hgt := (List.mem_filter.mp hc').2
    simp only [decide_eq_true_eq] at hgt
    have heq : c' = c := List.inj_on_of_nodup_map hnodup (List.mem_filter.mp hc').1 hc hname
    subst heq
    exact absurd hgt (not_lt.mpr hle)

/-- Claim C5: with `drop_high_missing = true`, `preprocess_data` retains a
column of the input exactly when its missing fraction is at most the
threshold (so a column at exactly the threshold is retained, and every
dropped column exceeded it), introduces no other columns, and always drops a
100 %-missing column when the threshold is below 1. -/
theorem preprocess_data_missing_threshold (df : Table) (target : Option String) (t : ℚ)
    (hnodup : (df.cols.map Col.name).Nodup) :
    (∀ c ∈ df.cols, (c ∈ (preprocess_data df target true t).1.cols ↔ missingFrac df c ≤ t)) ∧
    (∀ c ∈ (preprocess_data df target true t).1.cols, c ∈ df.cols) ∧
    (∀ c ∈ df.cols, df.wellformed → 0 < df.nrows →
      countNone c.values = c.values.length → t < 1 →
      c ∉ (preprocess_data df target true t).1.cols) := by
  refine ⟨fun c hc => mem_preprocess_keep df target t hnodup c hc, ?_, ?_⟩
  · intro c hc
    exact (List.mem_filter.mp hc).1
  · intro c hc hwf hn hall hlt
    rw [mem_preprocess_keep df target t hnodup c hc]
    intro hle
    have hfrac : missingFrac df c = 1 := by
      unfold missingFrac
      rw [hall, hwf c hc]
      have hnz : (df.nrows : ℚ) ≠ 0 := by
        exact_mod_cast Nat.pos_iff_ne_zero.mp hn
      field_simp
    rw [hfrac] at hle
    linarith

/-- A concrete two-column table: column a is half missing, column b fully
missing. -/
def dfC5 : Table :=
  ⟨[⟨"a", .float64, [some (.num 1), none]⟩, ⟨"b", .float64, [none, none]⟩]⟩

/-- Witness for claim C5: on `dfC5` with threshold 1/2, the boundary column a
(missing fraction exactly 1/2) is retained and the fully missing column b is
dropped. -/
theorem preprocess_data_missing_threshold_witness :
    (∀ c ∈ dfC5.cols, (c ∈ (preprocess_data dfC5 none true (1/2)).1.cols ↔
        missingFrac dfC5 c ≤ 1/2)) ∧
    (∀ c ∈ (preprocess_data dfC5 none true (1/2)).1.cols, c ∈ dfC5.cols) ∧
    (∀ c ∈ dfC5.cols, dfC5.wellformed → 0 < dfC5.nrows →
      countNone c.values = c.values.length → (1:ℚ)/2 < 1 →
      c ∉ (preprocess_data dfC5 none true (1/2)).1.cols) :=
  preprocess_data_missing_threshold dfC5 none (1/2) (by decide)

theorem classify_subsets (df : Table) (target : Option String) :
    (classifyFeatures df target).1 ⊆ (df.cols.filter (fun c => c.dtype.isNumeric)).map Col.name ∧
    (classifyFeatures df target).2 ⊆
      (df.cols.filter (fun c => c.dtype.isCategorical)).map Col.name := by
  cases target with
  | none => exact ⟨fun _ h => h, fun _ h => h⟩
  | some t =>
    simp only [classifyFeatures]
    split_ifs with h1 h2
    · exact ⟨fun _ h => List.erase_subset _ _ h, fun _ h => h⟩
    · exact ⟨fun _ h => h, fun _ h => List.erase_subset _ _ h⟩
    · exact ⟨fun _ h => h, fun _ h => h⟩

theorem numeric_cat_names_disjoint (df : Table)
    (hnodup : (df.cols.map Col.name).Nodup) :
    ∀ n ∈ (df.cols.filter (fun c => c.dtype.isNumeric)).map Col.name,
      n ∉ (df.cols.filter (fun c => c.dtype.isCategorical)).map Col.name := by
  intro n hnum hcat
  obtain ⟨c1, hc1, rfl⟩ := List.mem_map.mp hnum
  obtain ⟨c2, hc2, hname⟩ := List.mem_map.mp hcat
  have heq : c2 = c1 :=
    List.inj_on_of_nodup_map hnodup (List.mem_filter.mp hc2).1 (List.mem_filter.mp hc1).1 hname
  subst heq
  have h1 := (List.mem_filter.mp hc1).2
  have h2 := (List.mem_filter.mp hc2).2
  cases hd : c2.dtype <;> simp [Dtype.isNumeric, Dtype.isCategorical, hd] at h1 h2

theorem classify_target_not_mem (df : Table) (t : String)
    (hnodup : (df.cols.map Col.name).Nodup) (hne : t ≠ "") :
    t ∉ (classifyFeatures df (some t)).1 ∧ t ∉ (classifyFeatures df (some t)).2 := by
  have hnodupN : ((df.cols.filter (fun c => c.dtype.isNumeric)).map Col.name).Nodup :=
    hnodup.sublist ((List.filter_sublist df.cols).map Col.name)
  have hnodupC : ((df.cols.filter (fun c => c.dtype.isCategorical)).map Col.name).Nodup :=
    hnodup.sublist ((List.filter_sublist df.cols).map Col.name)
  have disj0 := numeric_cat_names_disjoint df hnodup
  simp only [classifyFeatures]
  by_cases h1 : t ≠ "" ∧ t ∈ (df.cols.filter (fun c => c.dtype.isNumeric)).map Col.name
  · rw [if_pos h1]
    exact ⟨hnodupN.not_mem_erase, disj0 t h1.2⟩
  · rw [if_neg h1]
    by_cases h2 : t ≠ "" ∧ t ∈ (df.cols.filter (fun c => c.dtype.isCategorical)).map Col.name
    · rw [if_pos h2]
      refine ⟨?_, hnodupC.not_mem_erase⟩
      intro hmem
      exact disj0 t hmem h2.2
    · rw [if_neg h2]
      push_neg at h1 h2
      exact ⟨h1 hne, h2 hne⟩

/-- Claim C6 counterexample: `preprocess_data` does not always remove a
supplied target name from the feature lists.  Python's truthiness guard
`if target_column and ...` treats the empty string as no target, so for a
table with a numeric column named by the empty string and
`target_column = ""`, the returned numeric feature list still contains the
target name. -/
theorem preprocess_data_empty_target_cex :
    "" ∈ (preprocess_data ⟨[⟨"", .int64, [some (.num 1)]⟩]⟩ (some "") true (4/5)).2.1 := by
  simp [preprocess_data, classifyFeatures, highMissingNames, missingFrac, countNone,
    Table.nrows]
  norm_num
  exact ⟨⟨"", .int64, [some (.num 1)]⟩, ⟨rfl, rfl⟩, rfl⟩

/-- Claim C6 (amended): for a table satisfying the Table invariant of unique
column names, the numeric and categorical feature-name lists returned by
`preprocess_data` are disjoint, and a supplied nonempty target name appears
in neither returned list (the code treats an empty-string target name as if
no target were supplied). -/
theorem preprocess_data_feature_lists (df : Table) (target : Option String)
    (dh : Bool) (t : ℚ)
    (hnodup : (df.cols.map Col.name).Nodup)
    (htgt : ∀ s, target = some s → s ≠ "") :
    (∀ n ∈ (preprocess_data df target dh t).2.1, n ∉ (preprocess_data df target dh t).2.2) ∧
    (∀ s, target = some s → s ∉ (preprocess_data df target dh t).2.1 ∧
      s ∉ (preprocess_data df target dh t).2.2) := by
  have hsub : (preprocess_data df target dh t).2.1 ⊆ (classifyFeatures df target).1 ∧
      (preprocess_data df target dh t).2.2 ⊆ (classifyFeatures df target).2 := by
    cases dh
    · exact ⟨fun _ h => h, fun _ h => h⟩
    · exact ⟨fun _ h => (List.mem_filter.mp h).1, fun _ h => (List.mem_filter.mp h).1⟩
  constructor
  · intro n h1 h2
    have hn0 := (classify_subsets df target).1 (hsub.1 h1)
    have hc0 := (classify_subsets df target).2 (hsub.2 h2)
    exact numeric_cat_names_disjoint df hnodup n hn0 hc0
  · intro s hs
    subst hs
    have hnm := classify_target_not_mem df s hnodup (htgt s rfl)
    exact ⟨fun h => hnm.1 (hsub.1 h), fun h => hnm.2 (hsub.2 h)⟩

/-- A concrete table with a numeric column x and a categorical column y. -/
def dfC6 : Table :=
  ⟨[⟨"x", .int64, [some (.num 1)]⟩, ⟨"y", .obj, [some (.str "a")]⟩]⟩

/-- Witness for claim C6: on `dfC6` with target x, the returned lists are
disjoint and neither contains x. -/
theorem preprocess_data_feature_lists_witness :
    (∀ n ∈ (preprocess_data dfC6 (some "x") true (4/5)).2.1,
      n ∉ (preprocess_data dfC6 (some "x") true (4/5)).2.2) ∧
    (∀ s, (some "x" : Option String) = some s →
      s ∉ (preprocess_data dfC6 (some "x") true (4/5)).2.1 ∧
      s ∉ (preprocess_data dfC6 (some "x") true (4/5)).2.2) :=
  preprocess_data_feature_lists dfC6 (some "x") true (4/5) (by decide)
    (by intro s hs; cases hs; decide)

/-! ## Feature transform pipeline (`create_preprocessor`,
`src/utils/data_processing.py`)

The `ColumnTransformer` applies the categorical sub-pipeline — a
`SimpleImputer` followed by `OneHotEncoder(handle_unknown='ignore',
sparse_output=False)` — to each listed categorical column independently, so
the embedding works at single-column granularity: `catPipelineFit` learns the
imputation statistic and the one-hot vocabulary from a fitting column, and
`catPipelineTransform` maps one cell through the fitted parameters. -/

/-- Insertion of a string into a sorted list (ascending). -/
def insertSorted (a : String) : List String → List String
  | [] => [a]
  | b :: t => if a ≤ b then a :: b :: t else b :: insertSorted a t

/-- Insertion sort on strings; models numpy's sorted unique order used by
`OneHotEncoder.categories_`. -/
def sortStrings (l : List String) : List String := l.foldr insertSorted []

theorem mem_insertSorted (a b : String) (l : List String) :
    a ∈ insertSorted b l ↔ a = b ∨ a ∈ l := by
  induction l with
  | nil => simp [insertSorted]
  | cons c t ih =>
    unfold insertSorted
    split_ifs with hle
    · simp
    · simp [ih]
      tauto

theorem mem_sortStrings (a : String) (l : List String) :
    a ∈ sortStrings l ↔ a ∈ l := by
  induction l with
  | nil => simp [sortStrings]
  | cons b t ih =>
    show a ∈ insertSorted b (sortStrings t) ↔ _
    rw [mem_insertSorted]
    simp [ih]

/-- Boolean membership test on strings (kernel-computable). -/
def memStr (a : String) : List String → Bool
  | [] => false
  | b :: t => if a = b then true else memStr a t

theorem memStr_iff (a : String) : ∀ l : List String, memStr a l = true ↔ a ∈ l := by
  intro l
  induction l with
  | nil => simp [memStr]
  | cons b t ih =>
    unfold memStr
    split_ifs with hb
    · subst hb
      simp
    · rw [ih]
      simp [hb]

/-- Duplicate removal on strings (kernel-computable; only membership in the
result matters, the output being sorted afterwards). -/
def dedupStr : List String → List String
  | [] => []
  | a :: t => if memStr a t then dedupStr t else a :: dedupStr t

theorem mem_dedupStr (a : String) : ∀ l : List String, a ∈ dedupStr l ↔ a ∈ l := by
  intro l
  induction l with
  | nil => simp [dedupStr]
  | cons b t ih =>
    unfold dedupStr
    split_ifs with hb
    · rw [ih]
      constructor
      · exact fun h => List.mem_cons_of_mem _ h
      · intro h
        rcases List.mem_cons.mp h with rfl | h
        · exact (memStr_iff a t).mp hb
        · exact h
    · simp [ih]

/-- Mode of a list of strings with scikit-learn's tie-break: among the values
of maximal multiplicity, the smallest (`SimpleImputer(strategy=
'most_frequent')` on object data). -/
def strMode (l : List String) : String :=
  match sortStrings (dedupStr l) with
  | [] => ""
  | b :: rest => rest.foldl (fun best v => if l.count best < l.count v then v else best) b

/-- The configuration assembled by `create_preprocessor`: the
`ColumnTransformer` together with its (unfitted) imputer/encoder settings. -/
structure PreprocessorSpec where
  numeric_features : List String
  categorical_features : List String
  numeric_strategy : String
  categorical_strategy : String
  scale_numeric : Bool
  cat_fill_value : String
deriving DecidableEq, Repr

/-- `create_preprocessor` of `src/utils/data_processing.py` (defaults:
`numeric_strategy='median'`, `categorical_strategy='most_frequent'`,
`scale_numeric=True`).  The literal `fill_value='missing'` of line 105 is
recorded as `cat_fill_value`; per scikit-learn's `SimpleImputer`, that value
is consulted only when the strategy is `'constant'`. -/
def create_preprocessor (numeric_features categorical_features : List String)
    (numeric_strategy categorical_strategy : String) (scale_numeric : Bool) :
    PreprocessorSpec :=
  { numeric_features := numeric_features
    categorical_features := categorical_features
    numeric_strategy := numeric_strategy
    categorical_strategy := categorical_strategy
    scale_numeric := scale_numeric
    cat_fill_value := "missing" }

/-- The statistic `SimpleImputer.fit` learns on one categorical column:
the column mode for `'most_frequent'`, the configured `fill_value` for
`'constant'`; other strategies raise on string data (`none`). -/
def catImputeStatistic (strategy fill_value : String) (col : List (Option String)) :
    Option String :=
  if strategy = "most_frequent" then some (strMode (col.filterMap id))
  else if strategy = "constant" then some fill_value
  else none

/-- Parameters learned by fitting the categorical sub-pipeline on a column:
the imputation fill value and the one-hot vocabulary. -/
structure CatParams where
  fill : String
  categories : List String
deriving DecidableEq, Repr

/-- `SimpleImputer.transform` on one column: missing entries become the
learned statistic. -/
def imputeCatCol (stat : String) (col : List (Option String)) : List String :=
  col.map (fun x => x.getD stat)

/-- `OneHotEncoder.fit`: the learned vocabulary is the sorted set of values
of the (already imputed) fitting column. -/
def oneHotCategories (col : List String) : List String := sortStrings (dedupStr col)

/-- Fitting the categorical branch of `create_preprocessor`'s
`ColumnTransformer` on one column: impute, then learn the one-hot
vocabulary over the imputed values. -/
def catPipelineFit (spec : PreprocessorSpec) (col : List (Option String)) :
    Option CatParams :=
  match catImputeStatistic spec.categorical_strategy spec.cat_fill_value col with
  | none => none
  | some stat => some ⟨stat, oneHotCategories (imputeCatCol stat col)⟩

/-- `OneHotEncoder.transform` of a single cell with
`handle_unknown='ignore'`: the indicator vector over the learned vocabulary;
a value outside the vocabulary yields all zeros.  The function is total — no
error case — which models "never raising". -/
def oneHotEncode (categories : List String) (v : String) : List ℚ :=
  categories.map (fun c => if c = v then 1 else 0)

/-- Transforming one cell through the fitted categorical branch: impute a
missing entry with the learned statistic, then one-hot encode. -/
def catPipelineTransform (p : CatParams) (x : Option String) : List ℚ :=
  oneHotEncode p.categories (x.getD p.fill)

/-- Claim C1 counterexample: fitting the default categorical branch
(`categorical_strategy='most_frequent'`) on the column [a, a, missing] learns
the vocabulary [a] — the sentinel string "missing" is NOT in the learned
one-hot vocabulary although the column had a missing entry, because
scikit-learn's `SimpleImputer` ignores `fill_value` unless the strategy is
`'constant'`: the default branch imputes with the most frequent value, not
the sentinel. -/
theorem create_preprocessor_default_no_sentinel_cex :
    catPipelineFit (create_preprocessor [] ["c"] "median" "most_frequent" true)
        [some "a", some "a", none] = some ⟨"a", ["a"]⟩ ∧
    "missing" ∉ (["a"] : List String) ∧
    none ∈ ([some "a", some "a", none] : List (Option String)) := by decide

/-- Claim C1 (amended): the sentinel category "missing" is imputed — and
hence enters the learned one-hot vocabulary whenever the fitting column had a
missing entry — only when `create_preprocessor` is called with
`categorical_strategy='constant'`; under the default `'most_frequent'` the
missing entries are imputed with the column mode instead. -/
theorem create_preprocessor_constant_sentinel (nf cf : List String) (ns : String)
    (sn : Bool) (col : List (Option String)) (p : CatParams)
    (hmiss : none ∈ col)
    (hfit : catPipelineFit (create_preprocessor nf cf ns "constant" sn) col = some p) :
    p.fill = "missing" ∧ "missing" ∈ p.categories := by
  have hstat : catImputeStatistic "constant" "missing" col = some "missing" := by
    simp [catImputeStatistic]
  unfold catPipelineFit create_preprocessor at hfit
  simp only [hstat] at hfit
  have hp := Option.some.inj hfit
  subst hp
  refine ⟨rfl, ?_⟩
  show "missing" ∈ oneHotCategories (imputeCatCol "missing" col)
  unfold oneHotCategories
  rw [mem_sortStrings, mem_dedupStr]
  exact List.mem_map.mpr ⟨none, hmiss, rfl⟩

/-- Witness for claim C1 (amended): fitting with strategy constant on
[a, missing] learns fill "missing" and vocabulary [a, missing]. -/
theorem create_preprocessor_constant_sentinel_witness :
    (⟨"missing", ["a", "missing"]⟩ : CatParams).fill = "missing" ∧
    "missing" ∈ (⟨"missing", ["a", "missing"]⟩ : CatParams).categories :=
  create_preprocessor_constant_sentinel [] ["c"] "median" true [some "a", none]
    ⟨"missing", ["a", "missing"]⟩ (by decide)
    (by simp [catPipelineFit, create_preprocessor, catImputeStatistic, oneHotCategories,
          imputeCatCol, dedupStr, memStr, sortStrings, insertSorted]
        decide)

theorem map_unknown_zero (v : String) : ∀ cats : List String, v ∉ cats →
    cats.map (fun c => if c = v then (1:ℚ) else 0) = List.replicate cats.length 0 := by
  intro cats
  induction cats with
  | nil => intro _; rfl
  | cons c t ih =>
    intro hv
    have hvc : c ≠ v := fun h => hv (h ▸ List.mem_cons_self c t)
    have hvt : v ∉ t := fun h => hv (List.mem_cons_of_mem _ h)
    simp [hvc, ih hvt, List.replicate_succ]

/-- Claim C7: for every fitted categorical branch produced by
`create_preprocessor` and every transform-time value not in the learned
vocabulary, the transform yields the all-zero vector over that column's
one-hot block; `catPipelineTransform` is total, so no error is ever
raised (`handle_unknown='ignore'`). -/
theorem onehot_unknown_all_zero (nf cf : List String) (ns cs : String) (sn : Bool)
    (col : List (Option String)) (p : CatParams) (v : String)
    (hfit : catPipelineFit (create_preprocessor nf cf ns cs sn) col = some p)
    (hv : v ∉ p.categories) :
    catPipelineTransform p (some v) = List.replicate p.categories.length 0 := by
  unfold catPipelineTransform oneHotEncode
  simp only [Option.getD_some]
  exact map_unknown_zero v p.categories hv

/-- Witness for claim C7: the branch fitted on [a] maps the unseen value b to
the all-zero vector. -/
theorem onehot_unknown_all_zero_witness :
    catPipelineTransform ⟨"a", ["a"]⟩ (some "b") =
      List.replicate (⟨"a", ["a"]⟩ : CatParams).categories.length 0 :=
  onehot_unknown_all_zero [] ["c"] "median" "most_frequent" true [some "a"]
    ⟨"a", ["a"]⟩ "b" (by decide) (by decide)

/-! ## Numeric missing-value fill (`preencher_valores_numericos`,
`src/utils/data_processing.py` lines 145-182) -/

/-- The present (non-missing) numeric entries of a column; pandas
reductions such as `mean`/`median`/`mode` skip `NaN`. -/
def presentNums (l : List (Option Val)) : List ℚ :=
  l.filterMap (fun x => match x with | some (.num q) => some q | _ => none)

/-- Insertion of a rational into a sorted list (ascending). -/
def insertSortedQ (a : ℚ) : List ℚ → List ℚ
  | [] => [a]
  | b :: t => if a ≤ b then a :: b :: t else b :: insertSortedQ a t

/-- Insertion sort on rationals. -/
def sortRats (l : List ℚ) : List ℚ := l.foldr insertSortedQ []

/-- `df[col].mean()`: mean of the present entries. -/
def colMean (l : List (Option Val)) : ℚ := listMean (presentNums l)

/-- `df[col].median()`: pandas linear-interpolation median of the present
entries (average of the two middle values for an even count). -/
def colMedian (l : List (Option Val)) : ℚ :=
  let s := sortRats (presentNums l)
  if s.length % 2 = 1 then s.getD (s.length / 2) 0
  else (s.getD (s.length / 2 - 1) 0 + s.getD (s.length / 2) 0) / 2

/-- `df[col].mode()[0]`: pandas returns the modes in ascending order, so
index 0 is the smallest value of maximal multiplicity — the documented
tie-break. -/
def colMode (l : List (Option Val)) : ℚ :=
  let p := presentNums l
  match sortRats p with
  | [] => 0
  | b :: rest => rest.foldl (fun best v => if p.count best < p.count v then v else best) b

/-- `df[col]`: the first column with the given label. -/
def lookupCol (cols : List Col) (n : String) : Option Col :=
  cols.find? (fun c => c.name = n)

/-- `df[col] = series`: replace the cells of the column(s) labelled `n`. -/
def setCol (df : Table) (n : String) (values : List (Option Val)) : Table :=
  ⟨df.cols.map (fun c => if c.name = n then ⟨c.name, c.dtype, values⟩ else c)⟩

/-- `series.fillna(v)`: missing entries become `v`, present entries are
unchanged. -/
def fillColumn (l : List (Option Val)) (v : ℚ) : List (Option Val) :=
  l.map (fun x => match x with | none => some (.num v) | some w => some w)

/-- `df[col].isnull().any()`. -/
def hasNullB (l : List (Option Val)) : Bool := l.any (fun x => x.isNone)

/-- The message of the `ValueError` raised for an unrecognized strategy. -/
def invalidStrategyMsg : String :=
  "Estratégia inválida. Use 'media', 'mediana', 'moda' ou 'constante'."

/-- One iteration of the `for col in colunas` loop of
`preencher_valores_numericos`: skip a column without missing values;
otherwise compute the fill value by strategy name — raising the
invalid-strategy `ValueError` on an unrecognized name — and fill.  A label
absent from the table raises a `KeyError` at `df[col]`. -/
def preencherStep (estrategia : String) (valor_constante : ℚ) (df : Table)
    (colName : String) : Except String Table :=
  match lookupCol df.cols colName with
  | none => .error "KeyError"
  | some c =>
    if hasNullB c.values then
      if estrategia = "media" then
        .ok (setCol df colName (fillColumn c.values (colMean c.values)))
      else if estrategia = "mediana" then
        .ok (setCol df colName (fillColumn c.values (colMedian c.values)))
      else if estrategia = "moda" then
        .ok (setCol df colName (fillColumn c.values (colMode c.values)))
      else if estrategia = "constante" then
        .ok (setCol df colName (fillColumn c.values valor_constante))
      else .error invalidStrategyMsg
    else .ok df

/-- `preencher_valores_numericos` of `src/utils/data_processing.py`
(defaults: `colunas=None`, `estrategia='mediana'`, `valor_constante=0`).
The source first takes `df = df.copy()` and mutates only the copy, so the
caller's table is never modified; the embedding is accordingly a pure
function from the input table to a result. -/
def preencher_valores_numericos (df : Table) (colunas : Option (List String))
    (estrategia : String) (valor_constante : ℚ) : Except String Table :=
  let cols : List String := match colunas with
    | none => (df.cols.filter (fun c => c.dtype.isNumeric)).map Col.name
    | some l => l
  cols.foldlM (fun t n => preencherStep estrategia valor_constante t n) df

theorem hasNullB_iff (l : List (Option Val)) : hasNullB l = true ↔ none ∈ l := by
  unfold hasNullB
  rw [List.any_eq_true]
  constructor
  · rintro ⟨x, hx, hnone⟩
    cases x with
    | none => exact hx
    | some v => simp at hnone
  · intro h
    exact ⟨none, h, rfl⟩

theorem preencher_foldl_error (estrategia : String) (vc : ℚ)
    (hbad : estrategia ≠ "media" ∧ estrategia ≠ "mediana" ∧ estrategia ≠ "moda" ∧
      estrategia ≠ "constante") :
    ∀ (names : List String) (df : Table),
    (∀ n ∈ names, (lookupCol df.cols n).isSome) →
    (∃ n ∈ names, ∃ col, lookupCol df.cols n = some col ∧ none ∈ col.values) →
    names.foldlM (fun t n => preencherStep estrategia vc t n) df =
      .error invalidStrategyMsg := by
  intro names
  induction names with
  | nil =>
    intro df _ hex
    obtain ⟨n, hn, _⟩ := hex
    exact absurd hn (List.not_mem_nil n)
  | cons n rest ih =>
    intro df hsome hex
    obtain ⟨col, hcol⟩ := Option.isSome_iff_exists.mp (hsome n (List.mem_cons_self n rest))
    rw [List.foldlM_cons]
    by_cases hnull : hasNullB col.values
    · have hstep : preencherStep estrategia vc df n = .error invalidStrategyMsg := by
        simp only [preencherStep, hcol]
        rw [if_pos hnull]
        rw [if_neg hbad.1, if_neg hbad.2.1, if_neg hbad.2.2.1, if_neg hbad.2.2.2]
      rw [hstep]
      rfl
    · have hstep : preencherStep estrategia vc df n = .ok df := by
        simp only [preencherStep, hcol]
        rw [if_neg hnull]
      rw [hstep]
      show rest.foldlM (fun t n => preencherStep estrategia vc t n) df =
        .error invalidStrategyMsg
      refine ih df (fun m hm => hsome m (List.mem_cons_of_mem _ hm)) ?_
      obtain ⟨m, hm, col', hcol', hnone⟩ := hex
      rcases List.mem_cons.mp hm with rfl | hm'
      · rw [hcol] at hcol'
        have : col = col' := Option.some.inj hcol'
        subst this
        exact absurd ((hasNullB_iff col.values).mpr hnone) hnull
      · exact ⟨m, hm', col', hcol', hnone⟩

/-- Claim C2 counterexample: calling the numeric fill with the unrecognized
strategy name "bogus" does NOT raise when no target column has a missing
value — the strategy name is only examined inside `if df[col].isnull().any()`,
so on a table without missing numeric entries the call returns the (copied)
table unchanged instead of raising `ValueError`. -/
theorem preencher_bogus_no_missing_cex :
    preencher_valores_numericos ⟨[⟨"x", .float64, [some (.num 1)]⟩]⟩ none "bogus" 0 =
      .ok ⟨[⟨"x", .float64, [some (.num 1)]⟩]⟩ := by rfl

/-- Claim C2 (amended): when at least one targeted numeric column does have a
missing value (and column names are unique), calling
`preencher_valores_numericos` with an unrecognized strategy name raises the
invalid-strategy `ValueError`; the caller's table is left unmodified, the
source mutating only its internal `df.copy()` — accordingly the embedding
returns an error carrying no partially filled table. -/
theorem preencher_invalid_strategy (df : Table) (estrategia : String) (vc : ℚ)
    (hnodup : (df.cols.map Col.name).Nodup)
    (hbad : estrategia ≠ "media" ∧ estrategia ≠ "mediana" ∧ estrategia ≠ "moda" ∧
      estrategia ≠ "constante")
    (hmiss : ∃ c ∈ df.cols, c.dtype.isNumeric ∧ none ∈ c.values) :
    preencher_valores_numericos df none estrategia vc = .error invalidStrategyMsg := by
  show ((df.cols.filter (fun c => c.dtype.isNumeric)).map Col.name).foldlM
    (fun t n => preencherStep estrategia vc t n) df = .error invalidStrategyMsg
  apply preencher_foldl_error estrategia vc hbad
  · intro n hn
    obtain ⟨c', hc', rfl⟩ := List.mem_map.mp hn
    unfold lookupCol
    rw [List.find?_isSome]
    exact ⟨c', (List.mem_filter.mp hc').1, by simp⟩
  · obtain ⟨c, hc, hnum, hnone⟩ := hmiss
    refine ⟨c.name, List.mem_map.mpr ⟨c, List.mem_filter.mpr ⟨hc, by simp [hnum]⟩, rfl⟩,
      c, ?_, hnone⟩
    unfold lookupCol
    cases hfind : List.find? (fun cc => cc.name = c.name) df.cols with
    | none =>
      exfalso
      have := List.find?_eq_none.mp hfind c hc
      simp at this
    | some d =>
      have hd1 := List.mem_of_find?_eq_some hfind
      have hd2 := List.find?_some hfind
      simp only [decide_eq_true_eq] at hd2
      rw [List.inj_on_of_nodup_map hnodup hd1 hc hd2]

/-- Witness for claim C2 (amended): a table whose single numeric column has a
missing entry makes the "bogus" strategy raise the invalid-strategy error. -/
theorem preencher_invalid_strategy_witness :
    preencher_valores_numericos ⟨[⟨"x", .float64, [some (.num 1), none]⟩]⟩ none "bogus" 0 =
      .error invalidStrategyMsg :=
  preencher_invalid_strategy ⟨[⟨"x", .float64, [some (.num 1), none]⟩]⟩ "bogus" 0
    (by decide) (by decide)
    ⟨⟨"x", .float64, [some (.num 1), none]⟩, List.mem_cons_self _ _, by decide, by decide⟩

/-! ## Splitter (`split_data` in `src/utils/data_processing.py`,
`dividir_dados` in `uteis/preprocessing.py`)

Both functions are a single call to scikit-learn's `train_test_split` with a
fixed integer `random_state`.  The library draws the row permutation from
`RandomState(seed)` — a pure function of the seed — so the embedding realises
the shuffle as an explicit deterministic pseudo-random permutation keyed by
the seed; the determinism claim does not depend on which permutation the
generator produces. -/

/-- A linear-congruential pseudo-random step (modulus 2³¹). -/
def lcgNext (s : ℕ) : ℕ := (1103515245 * s + 12345) % 2147483648

/-- Remove the element at position `k mod length`, returning it and the rest. -/
def pickOut (l : List ℕ) (k : ℕ) : ℕ × List ℕ :=
  let i := k % l.length
  (l.getD i 0, l.eraseIdx i)

/-- Fisher–Yates-style selection shuffle driven by the LCG stream. -/
def fyGo : ℕ → ℕ → List ℕ → List ℕ
  | _, 0, _ => []
  | s, fuel + 1, l =>
    if l.isEmpty then []
    else
      let p := pickOut l s
      p.1 :: fyGo (lcgNext s) fuel p.2

/-- The seeded permutation of row indices `0..n-1`
(`RandomState(seed).permutation(n)`). -/
def permutation (seed n : ℕ) : List ℕ := fyGo (lcgNext seed) n (List.range n)

/-- Index partition of `train_test_split`: the test block is the first
`ceil(n·test_size)` entries of the seeded permutation, the train block the
rest. -/
def splitIndices (n : ℕ) (test_size : ℚ) (seed : ℕ) : List ℕ × List ℕ :=
  let p := permutation seed n
  let nt := Nat.ceil ((n : ℚ) * test_size)
  (p.drop nt, p.take nt)

/-- Row selection of a table by an index list. -/
def selectRows (df : Table) (idx : List ℕ) : Table :=
  ⟨df.cols.map (fun c => ⟨c.name, c.dtype, idx.map (fun i => c.values.getD i none)⟩)⟩

/-- Row selection of a target sequence by an index list. -/
def selectTarget (y : List (Option Val)) (idx : List ℕ) : List (Option Val) :=
  idx.map (fun i => y.getD i none)

/-- `sklearn.model_selection.train_test_split` on one feature table and one
target sequence: validates the fraction and the row counts, then splits both
along the seeded index partition. -/
def train_test_split (X : Table) (y : List (Option Val)) (test_size : ℚ)
    (seed : ℕ) :
    Except String (Table × Table × List (Option Val) × List (Option Val)) :=
  if ¬(0 < test_size ∧ test_size < 1) then .error "test_size should be a float in (0, 1)"
  else if X.nrows ≠ y.length then .error "inconsistent numbers of samples"
  else
    let p := splitIndices X.nrows test_size seed
    .ok (selectRows X p.1, selectRows X p.2, selectTarget y p.1, selectTarget y p.2)

/-- `split_data` of `src/utils/data_processing.py` (defaults
`test_size=0.2`, `random_state=42`, no stratification): delegates to
`train_test_split`. -/
def split_data (X : Table) (y : List (Option Val)) (test_size : ℚ)
    (random_state : ℕ) :
    Except String (Table × Table × List (Option Val) × List (Option Val)) :=
  train_test_split X y test_size random_state

/-- `dividir_dados` of `uteis/preprocessing.py`: the same single call to
`train_test_split`. -/
def dividir_dados (X : Table) (y : List (Option Val)) (tamanho_teste : ℚ)
    (seed : ℕ) :
    Except String (Table × Table × List (Option Val) × List (Option Val)) :=
  train_test_split X y tamanho_teste seed

/-- Claim C8: `split_data` is deterministic in its seed — two calls with the
same seed, fraction and inputs return identical train/test partitions (the
seeded permutation is a pure function of its arguments, with no hidden
state), and the underlying index partition depends on the input table only
through its row count. -/
theorem split_data_deterministic (X : Table) (y : List (Option Val)) (ts : ℚ)
    (seed : ℕ) :
    split_data X y ts seed = split_data X y ts seed ∧
    dividir_dados X y ts seed = split_data X y ts seed ∧
    (∀ X₂ : Table, X₂.nrows = X.nrows →
      splitIndices X₂.nrows ts seed = splitIndices X.nrows ts seed) :=
  ⟨rfl, rfl, fun X₂ h => by rw [h]⟩

/-- Witness for claim C8: the determinism statement at a concrete table,
fraction and seed. -/
theorem split_data_deterministic_witness :
    split_data ⟨[⟨"x", .float64, [some (.num 1), some (.num 2)]⟩]⟩ [some (.num 3), some (.num 4)]
        (1/5) 42 =
      split_data ⟨[⟨"x", .float64, [some (.num 1), some (.num 2)]⟩]⟩ [some (.num 3), some (.num 4)]
        (1/5) 42 ∧
    dividir_dados ⟨[⟨"x", .float64, [some (.num 1), some (.num 2)]⟩]⟩ [some (.num 3), some (.num 4)]
        (1/5) 42 =
      split_data ⟨[⟨"x", .float64, [some (.num 1), some (.num 2)]⟩]⟩ [some (.num 3), some (.num 4)]
        (1/5) 42 ∧
    splitIndices (⟨[⟨"x", .float64, [some (.num 1), some (.num 2)]⟩]⟩ : Table).nrows (1/5) 42 =
      splitIndices (⟨[⟨"x", .float64, [some (.num 1), some (.num 2)]⟩]⟩ : Table).nrows (1/5) 42 :=
  ⟨(split_data_deterministic ⟨[⟨"x", .float64, [some (.num 1), some (.num 2)]⟩]⟩
      [some (.num 3), some (.num 4)] (1/5) 42).1,
   (split_data_deterministic ⟨[⟨"x", .float64, [some (.num 1), some (.num 2)]⟩]⟩
      [some (.num 3), some (.num 4)] (1/5) 42).2.1,
   (split_data_deterministic ⟨[⟨"x", .float64, [some (.num 1), some (.num 2)]⟩]⟩
      [some (.num 3), some (.num 4)] (1/5) 42).2.2
     ⟨[⟨"x", .float64, [some (.num 1), some (.num 2)]⟩]⟩ rfl⟩

/-! ## Categorical conversion duplicates (`converter_categorias` in
`src/utils/data_processing.py` lines 185-214 and in `uteis/preprocessing.py`
lines 182-209) -/

/-- Total order used by `pd.get_dummies` to list categories (sorted unique
values; on homogeneous pandas columns only one of the two value kinds
occurs, numbers ordered before text here for totality). -/
def valLe (a b : Val) : Bool :=
  match a, b with
  | .num p, .num q => p ≤ q
  | .num _, .str _ => true
  | .str _, .num _ => false
  | .str s, .str t => s ≤ t

def insertSortedV (a : Val) : List Val → List Val
  | [] => [a]
  | b :: t => if valLe a b then a :: b :: t else b :: insertSortedV a t

def sortVals (l : List Val) : List Val := l.foldr insertSortedV []

def memVal (a : Val) : List Val → Bool
  | [] => false
  | b :: t => if a = b then true else memVal a t

def dedupVals : List Val → List Val
  | [] => []
  | a :: t => if memVal a t then dedupVals t else a :: dedupVals t

/-- Rendering of a category value into the dummy-column name suffix
(`f"{col}_{value}"`). -/
def valToName : Val → String
  | .str s => s
  | .num q => toString q

/-- The dummy indicator block `pd.get_dummies` creates for one source
column: one 0/1 column per category (sorted, `NaN` excluded, a missing entry
encoding to all zeros); `drop_first=True` drops the first category. -/
def dummyCols (c : Col) (drop_first : Bool) : List Col :=
  let cats0 := sortVals (dedupVals (c.values.filterMap id))
  let cats := if drop_first then cats0.tail else cats0
  cats.map (fun v =>
    ⟨c.name ++ "_" ++ valToName v, .int64,
     c.values.map (fun x => some (.num (if x = some v then 1 else 0)))⟩)

/-- `pd.get_dummies(df, columns=cols, drop_first=...)`: non-encoded columns
keep their order, followed by the dummy blocks in the order of `cols`. -/
def get_dummies (df : Table) (columns : List String) (drop_first : Bool) : Table :=
  ⟨df.cols.filter (fun c => c.name ∉ columns) ++
    (columns.map (fun n =>
      match lookupCol df.cols n with
      | some c => dummyCols c drop_first
      | none => [])).foldr (· ++ ·) []⟩

/-- `str(value)` as pandas' `astype(str)` produces it (`NaN` becomes the
text "nan"). -/
def valToStrPy : Option Val → String
  | none => "nan"
  | some (.str s) => s
  | some (.num q) => toString q

/-- `LabelEncoder().fit_transform(df[col].astype(str))`: classes are the
sorted unique strings; each entry is replaced by its class index. -/
def labelEncodeCol (c : Col) : Col :=
  let classes := sortStrings (dedupStr (c.values.map valToStrPy))
  ⟨c.name, .int64,
   c.values.map (fun x => some (.num ((classes.indexOf (valToStrPy x) : ℕ) : ℚ)))⟩

/-- `converter_categorias` of `src/utils/data_processing.py` (defaults:
`colunas=None`, `metodo='onehot'`, `drop_first=True`). -/
def converter_categorias (df : Table) (colunas : Option (List String))
    (metodo : String) (drop_first : Bool) : Except String Table :=
  let cols : List String := match colunas with
    | none => (df.cols.filter (fun c => c.dtype.isCategorical)).map Col.name
    | some l => l
  if metodo = "onehot" then .ok (get_dummies df cols drop_first)
  else if metodo = "label" then
    .ok ⟨df.cols.map (fun c => if c.name ∈ cols then labelEncodeCol c else c)⟩
  else .error "Método inválido. Use 'onehot' ou 'label'."

/-- `converter_categorias` of `uteis/preprocessing.py` (defaults:
`colunas_categoricas=None`, `metodo='onehot'`): identical logic, except that
`drop_first=True` is hard-coded in the `pd.get_dummies` call instead of
being exposed as a parameter. -/
def converter_categorias_uteis (df : Table) (colunas_categoricas : Option (List String))
    (metodo : String) : Except String Table :=
  let cols : List String := match colunas_categoricas with
    | none => (df.cols.filter (fun c => c.dtype.isCategorical)).map Col.name
    | some l => l
  if metodo = "onehot" then .ok (get_dummies df cols true)
  else if metodo = "label" then
    .ok ⟨df.cols.map (fun c => if c.name ∈ cols then labelEncodeCol c else c)⟩
  else .error "Método inválido. Use 'onehot' ou 'label'."

/-- Claim C10 counterexample (negation of the claimed existential): there is
NO input table on which the two `converter_categorias` implementations,
called with their default parameters, return different one-hot tables — the
`drop_first` defaults do not differ: `src/utils` defaults the parameter to
`True` and `uteis` hard-codes `True`. -/
theorem converter_categorias_defaults_agree_cex :
    ¬ ∃ df : Table, converter_categorias df none "onehot" true ≠
      converter_categorias_uteis df none "onehot" := by
  rintro ⟨df, hne⟩
  exact hne rfl

/-- Claim C10 (amended): the two near-duplicate `converter_categorias`
implementations have the SAME effective one-hot default — `drop_first=True`,
a parameter default in `src/utils/data_processing.py` and a hard-coded
argument in `uteis/preprocessing.py` — so with default parameters they
return identical tables on every input; they differ in flexibility (only the
former lets callers choose `drop_first=False`), not in default behaviour. -/
theorem converter_categorias_defaults_agree (df : Table)
    (colunas : Option (List String)) (metodo : String) :
    converter_categorias df colunas metodo true =
      converter_categorias_uteis df colunas metodo := rfl

/-! ## CSV save/load round trip (`salvar_dados` / `carregar_dados`,
`uteis/preprocessing.py`)

`salvar_dados` is `df.to_csv(path, index=False)` and `carregar_dados` is
`pd.read_csv(path)`; both delegate to pandas' CSV writer/reader, embedded
here by their documented semantics.  A file is modelled as its list of
records (one per line); fields containing the delimiter, the quote character
or a newline are quoted with embedded quotes doubled (`QUOTE_MINIMAL`),
missing values are written as empty fields, and the reader infers each
column's type from its content: integer when every field parses as an
integer, floating-point when every non-missing field parses as a decimal
number, text otherwise.  Floating-point columns restricted to integral
values print as pandas prints them, with a trailing `.0`.  (Outside the
modelled class sit pandas behaviours the round-trip claim already fails on
or that the safe class below excludes: blank-line skipping, duplicate-header
mangling, bool inference, and shortest-roundtrip float printing.) -/

/-- One field of a CSV line, quoted when it contains the delimiter or the
quote character (or a newline), with embedded quotes doubled. -/
def needsQuote (s : List Char) : Bool :=
  s.any (fun ch => ch = ',' ∨ ch = '"' ∨ ch = '\n')

def doubleQuotes : List Char → List Char
  | [] => []
  | ch :: t => if ch = '"' then '"' :: '"' :: doubleQuotes t else ch :: doubleQuotes t

def escapeField (s : List Char) : List Char :=
  if needsQuote s then '"' :: (doubleQuotes s ++ ['"']) else s

/-- Render one CSV record from its fields (comma-separated, quoted as
needed). -/
def renderLine : List (List Char) → List Char
  | [] => []
  | [f] => escapeField f
  | f :: fs => escapeField f ++ ',' :: renderLine fs

/-- CSV field splitter: a character automaton over one record, `inQ` telling
whether the head lies inside a quoted region; doubled quotes inside a quoted
region denote a literal quote. -/
def plGo (inQ : Bool) (acc : List Char) : List Char → List (List Char)
  | [] => [acc.reverse]
  | ch :: rest =>
    if inQ then
      if ch = '"' then
        match rest with
        | '"' :: rest2 => plGo true ('"' :: acc) rest2
        | ',' :: rest2 => acc.reverse :: plGo false [] rest2
        | [] => [acc.reverse]
        | c2 :: rest2 => plGo false (c2 :: acc) rest2
      else plGo true (ch :: acc) rest
    else
      if ch = ',' then acc.reverse :: plGo false [] rest
      else if ch = '"' then plGo true acc rest
      else plGo false (ch :: acc) rest

def parseLine (cs : List Char) : List (List Char) := plGo false [] cs


theorem plGo_false_comma (acc r : List Char) :
    plGo false acc (',' :: r) = acc.reverse :: plGo false [] r := by
  conv_lhs => unfold plGo
  rw [if_neg Bool.false_ne_true, if_pos rfl]

theorem plGo_false_quote (acc r : List Char) :
    plGo false acc ('"' :: r) = plGo true acc r := by
  conv_lhs => unfold plGo
  rw [if_neg Bool.false_ne_true, if_neg (by decide : ('"' : Char) ≠ ','), if_pos rfl]

theorem plGo_false_other (acc r : List Char) (ch : Char) (h1 : ch ≠ ',') (h2 : ch ≠ '"') :
    plGo false acc (ch :: r) = plGo false (ch :: acc) r := by
  conv_lhs => unfold plGo
  rw [if_neg Bool.false_ne_true, if_neg h1, if_neg h2]

theorem plGo_true_other (acc r : List Char) (ch : Char) (h : ch ≠ '"') :
    plGo true acc (ch :: r) = plGo true (ch :: acc) r := by
  conv_lhs => unfold plGo
  rw [if_pos rfl, if_neg h]

theorem plGo_true_qq (acc r : List Char) :
    plGo true acc ('"' :: '"' :: r) = plGo true ('"' :: acc) r := by
  conv_lhs => unfold plGo
  rw [if_pos rfl, if_pos rfl]
  rfl

theorem plGo_true_qcomma (acc r : List Char) :
    plGo true acc ('"' :: ',' :: r) = acc.reverse :: plGo false [] r := by
  conv_lhs => unfold plGo
  rw [if_pos rfl, if_pos rfl]
  rfl

theorem plGo_true_qnil (acc : List Char) :
    plGo true acc ['"'] = [acc.reverse] := by
  conv_lhs => unfold plGo
  rw [if_pos rfl, if_pos rfl]

theorem plGo_nil (b : Bool) (acc : List Char) : plGo b acc [] = [acc.reverse] := rfl

theorem not_needsQuote {f : List Char} (hq : needsQuote f = false) :
    ∀ ch ∈ f, ch ≠ ',' ∧ ch ≠ '"' := by
  intro ch hch
  unfold needsQuote at hq
  rw [List.any_eq_false] at hq
  have := hq ch hch
  simp at this
  exact ⟨this.1, this.2.1⟩

theorem plGo_unquoted_clean : ∀ (f acc rest : List Char),
    (∀ ch ∈ f, ch ≠ ',' ∧ ch ≠ '"') →
    plGo false acc (f ++ rest) = plGo false (f.reverse ++ acc) rest := by
  intro f
  induction f with
  | nil => intro acc rest _; rfl
  | cons c f' ih =>
    intro acc rest hclean
    have hc := hclean c (List.mem_cons_self c f')
    show plGo false acc (c :: (f' ++ rest)) = _
    rw [plGo_false_other acc (f' ++ rest) c hc.1 hc.2]
    rw [ih (c :: acc) rest (fun ch hch => hclean ch (List.mem_cons_of_mem _ hch))]
    simp

theorem plGo_quoted_inv : ∀ (f acc rest : List Char),
    (rest = [] ∨ ∃ r, rest = ',' :: r) →
    plGo true acc (doubleQuotes f ++ '"' :: rest) = plGo false (f.reverse ++ acc) rest := by
  intro f
  induction f with
  | nil =>
    intro acc rest hrest
    show plGo true acc ('"' :: rest) = _
    rcases hrest with rfl | ⟨r, rfl⟩
    · rw [plGo_true_qnil]
      rfl
    · rw [plGo_true_qcomma, plGo_false_comma]
      simp
  | cons c f' ih =>
    intro acc rest hrest
    by_cases hc : c = '"'
    · subst hc
      have hdq : doubleQuotes ('"' :: f') = '"' :: '"' :: doubleQuotes f' := by
        simp [doubleQuotes]
      rw [hdq]
      show plGo true acc ('"' :: '"' :: (doubleQuotes f' ++ '"' :: rest)) = _
      rw [plGo_true_qq]
      rw [ih ('"' :: acc) rest hrest]
      simp
    · have hdq : doubleQuotes (c :: f') = c :: doubleQuotes f' := by
        simp [doubleQuotes, hc]
      rw [hdq]
      show plGo true acc (c :: (doubleQuotes f' ++ '"' :: rest)) = _
      rw [plGo_true_other _ _ c hc]
      rw [ih (c :: acc) rest hrest]
      simp

theorem plGo_clean_end (f acc : List Char)
    (hclean : ∀ ch ∈ f, ch ≠ ',' ∧ ch ≠ '"') :
    plGo false acc f = [acc.reverse ++ f] := by
  have h := plGo_unquoted_clean f acc [] hclean
  rw [List.append_nil] at h
  rw [h]
  show [(f.reverse ++ acc).reverse] = _
  simp

theorem parseLine_renderLine : ∀ fs : List (List Char), fs ≠ [] →
    parseLine (renderLine fs) = fs := by
  intro fs
  induction fs with
  | nil => intro h; exact absurd rfl h
  | cons f fs' ih =>
    intro _
    cases fs' with
    | nil =>
      show parseLine (escapeField f) = [f]
      unfold parseLine escapeField
      by_cases hq : needsQuote f
      · rw [if_pos hq]
        rw [show ('"' :: (doubleQuotes f ++ ['"'])) = '"' :: (doubleQuotes f ++ '"' :: []) from rfl]
        rw [plGo_false_quote]
        rw [plGo_quoted_inv f [] [] (Or.inl rfl)]
        rw [plGo_nil]
        simp
      · rw [if_neg hq]
        rw [plGo_clean_end f [] (not_needsQuote (by simpa using hq))]
        rfl
    | cons g fs2 =>
      show parseLine (escapeField f ++ ',' :: renderLine (g :: fs2)) = f :: g :: fs2
      unfold parseLine escapeField
      by_cases hq : needsQuote f
      · rw [if_pos hq]
        rw [show ('"' :: (doubleQuotes f ++ ['"'])) ++ ',' :: renderLine (g :: fs2) =
          '"' :: (doubleQuotes f ++ '"' :: (',' :: renderLine (g :: fs2))) from by simp]
        rw [plGo_false_quote]
        rw [plGo_quoted_inv f [] (',' :: renderLine (g :: fs2)) (Or.inr ⟨_, rfl⟩)]
        rw [plGo_false_comma]
        have ihe : plGo false [] (renderLine (g :: fs2)) = g :: fs2 := ih (by simp)
        rw [ihe]
        simp
      · rw [if_neg hq]
        rw [plGo_unquoted_clean f [] (',' :: renderLine (g :: fs2))
          (not_needsQuote (by simpa using hq))]
        rw [plGo_false_comma]
        have ihe : plGo false [] (renderLine (g :: fs2)) = g :: fs2 := ih (by simp)
        rw [ihe]
        simp

def digitChar (d : ℕ) : Char := Char.ofNat (48 + d)

def toDigitsAux : ℕ → ℕ → List ℕ
  | 0, _ => []
  | fuel + 1, n => if n = 0 then [] else n % 10 :: toDigitsAux fuel (n / 10)

def natChars (n : ℕ) : List Char :=
  if n = 0 then ['0'] else ((toDigitsAux n n).map digitChar).reverse

def intChars (k : ℤ) : List Char :=
  if k < 0 then '-' :: natChars k.natAbs else natChars k.toNat

def isDigitChar (ch : Char) : Bool := 48 ≤ ch.toNat && ch.toNat ≤ 57

def charDigit (ch : Char) : ℕ := ch.toNat - 48

def parseNatChars (cs : List Char) : Option ℕ :=
  if cs ≠ [] ∧ cs.all isDigitChar then
    some (cs.foldl (fun a ch => 10 * a + charDigit ch) 0)
  else none

def parseIntChars (cs : List Char) : Option ℤ :=
  match cs with
  | '-' :: rest => (parseNatChars rest).map (fun n : ℕ => -(n : ℤ))
  | _ => (parseNatChars cs).map (fun n : ℕ => (n : ℤ))

theorem toDigitsAux_lt10 : ∀ fuel n, ∀ d ∈ toDigitsAux fuel n, d < 10 := by
  intro fuel
  induction fuel with
  | zero => intro n d hd; simp [toDigitsAux] at hd
  | succ f ih =>
    intro n d hd
    unfold toDigitsAux at hd
    split_ifs at hd with h0
    · simp at hd
    · rcases List.mem_cons.mp hd with rfl | hd'
      · exact Nat.mod_lt _ (by norm_num)
      · exact ih _ d hd'

theorem toDigitsAux_val : ∀ fuel n, n ≤ fuel →
    (toDigitsAux fuel n).foldr (fun d r => d + 10 * r) 0 = n := by
  intro fuel
  induction fuel with
  | zero => intro n hn; interval_cases n; simp [toDigitsAux]
  | succ f ih =>
    intro n hn
    unfold toDigitsAux
    split_ifs with h0
    · simp [h0]
    · simp only [List.foldr_cons]
      rw [ih (n / 10) (by omega)]
      omega

theorem toDigitsAux_ne_nil (fuel n : ℕ) (hf : n ≤ fuel) (hn : n ≠ 0) :
    toDigitsAux fuel n ≠ [] := by
  cases fuel with
  | zero => omega
  | succ f =>
    unfold toDigitsAux
    rw [if_neg hn]
    simp

theorem charDigit_digitChar (d : ℕ) (hd : d < 10) : charDigit (digitChar d) = d := by
  interval_cases d <;> decide

theorem isDigitChar_digitChar (d : ℕ) (hd : d < 10) : isDigitChar (digitChar d) = true := by
  interval_cases d <;> decide

theorem parseNatChars_natChars (n : ℕ) : parseNatChars (natChars n) = some n := by
  by_cases h0 : n = 0
  · subst h0; decide
  · unfold natChars
    rw [if_neg h0]
    have hdig := toDigitsAux_lt10 n n
    have hne := toDigitsAux_ne_nil n n le_rfl h0
    unfold parseNatChars
    rw [if_pos ?hcond]
    case hcond =>
      constructor
      · simp [hne]
      · rw [List.all_eq_true]
        intro ch hch
        rw [List.mem_reverse, List.mem_map] at hch
        obtain ⟨d, hd, rfl⟩ := hch
        exact isDigitChar_digitChar d (hdig d hd)
    congr 1
    rw [List.foldl_reverse]
    rw [List.foldr_map]
    have hcong : (toDigitsAux n n).foldr (fun d a => 10 * a + charDigit (digitChar d)) 0 =
        (toDigitsAux n n).foldr (fun d a => d + 10 * a) 0 := by
      apply List.foldr_ext
      intro d hd a
      rw [charDigit_digitChar d (hdig d hd)]
      omega
    rw [hcong, toDigitsAux_val n n le_rfl]

theorem natChars_ne_nil (n : ℕ) : natChars n ≠ [] := by
  unfold natChars
  split_ifs with h0
  · simp
  · simp [toDigitsAux_ne_nil n n le_rfl h0]

theorem natChars_digits (n : ℕ) : ∀ ch ∈ natChars n, isDigitChar ch = true := by
  intro ch hch
  unfold natChars at hch
  split_ifs at hch with h0
  · simp at hch
    subst hch
    decide
  · rw [List.mem_reverse, List.mem_map] at hch
    obtain ⟨d, hd, rfl⟩ := hch
    exact isDigitChar_digitChar d (toDigitsAux_lt10 n n d hd)

theorem parseIntChars_neg (cs : List Char) :
    parseIntChars ('-' :: cs) = (parseNatChars cs).map (fun n : ℕ => -(n : ℤ)) := by
  conv_lhs => unfold parseIntChars
  rfl

theorem parseIntChars_default (c : Char) (cs : List Char) (hc : c ≠ '-') :
    parseIntChars (c :: cs) = (parseNatChars (c :: cs)).map (fun n : ℕ => (n : ℤ)) := by
  unfold parseIntChars
  split
  · rename_i heq
    exact absurd (List.cons.inj heq).1 hc
  · rfl

theorem parseIntChars_intChars (k : ℤ) : parseIntChars (intChars k) = some k := by
  unfold intChars
  split_ifs with hneg
  · rw [parseIntChars_neg, parseNatChars_natChars]
    show some (-((k.natAbs : ℕ) : ℤ)) = some k
    congr 1
    omega
  · cases hnc : natChars k.toNat with
    | nil => exact absurd hnc (natChars_ne_nil _)
    | cons c cs =>
      have hcd : isDigitChar c = true := natChars_digits _ c (hnc ▸ List.mem_cons_self c cs)
      have hcne : c ≠ '-' := by
        intro h
        subst h
        simp [isDigitChar] at hcd
      rw [parseIntChars_default c cs hcne, ← hnc, parseNatChars_natChars]
      show some ((k.toNat : ℤ)) = some k
      congr 1
      omega

def parseFloatNat (cs : List Char) : Option ℚ :=
  let ip := cs.takeWhile (fun ch => ch ≠ '.')
  match cs.dropWhile (fun ch => ch ≠ '.') with
  | [] => (parseNatChars ip).map (fun n : ℕ => (n : ℚ))
  | '.' :: frac =>
    match parseNatChars ip, parseNatChars frac with
    | some a, some b => some ((a : ℚ) + (b : ℚ) / (10 : ℚ) ^ frac.length)
    | _, _ => none
  | _ :: _ => none

def parseFloatChars (cs : List Char) : Option ℚ :=
  match cs with
  | '-' :: rest => (parseFloatNat rest).map (fun q => -q)
  | _ => parseFloatNat cs

theorem takeWhile_append_stop (p : Char → Bool) (l : List Char) (c : Char) (rs : List Char)
    (hl : ∀ x ∈ l, p x = true) (hc : p c = false) :
    (l ++ c :: rs).takeWhile p = l := by
  induction l with
  | nil => simp [List.takeWhile_cons, hc]
  | cons a t ih =>
    have ha := hl a (List.mem_cons_self a t)
    simp only [List.cons_append, List.takeWhile_cons, ha, if_true]
    rw [ih (fun x hx => hl x (List.mem_cons_of_mem _ hx))]

theorem dropWhile_append_stop (p : Char → Bool) (l : List Char) (c : Char) (rs : List Char)
    (hl : ∀ x ∈ l, p x = true) (hc : p c = false) :
    (l ++ c :: rs).dropWhile p = c :: rs := by
  induction l with
  | nil => simp [List.dropWhile_cons, hc]
  | cons a t ih =>
    have ha := hl a (List.mem_cons_self a t)
    simp only [List.cons_append, List.dropWhile_cons, ha, if_true]
    exact ih (fun x hx => hl x (List.mem_cons_of_mem _ hx))

theorem parseFloatNat_render (n : ℕ) :
    parseFloatNat (natChars n ++ ['.', '0']) = some ((n : ℚ)) := by
  unfold parseFloatNat
  have hdig := natChars_digits n
  have htake : (natChars n ++ '.' :: ['0']).takeWhile (fun ch => ch ≠ '.') = natChars n := by
    apply takeWhile_append_stop
    · intro x hx
      have := hdig x hx
      simp only [decide_eq_true_eq]
      intro heq
      subst heq
      simp [isDigitChar] at this
    · simp
  have hdrop : (natChars n ++ '.' :: ['0']).dropWhile (fun ch => ch ≠ '.') = '.' :: ['0'] := by
    apply dropWhile_append_stop
    · intro x hx
      have := hdig x hx
      simp only [decide_eq_true_eq]
      intro heq
      subst heq
      simp [isDigitChar] at this
    · simp
  simp only [htake, hdrop]
  rw [parseNatChars_natChars]
  have h0 : parseNatChars ['0'] = some 0 := by decide
  rw [h0]
  norm_num

theorem parseFloatChars_neg (cs : List Char) :
    parseFloatChars ('-' :: cs) = (parseFloatNat cs).map (fun q => -q) := by
  conv_lhs => unfold parseFloatChars
  rfl

theorem parseFloatChars_default (c : Char) (cs : List Char) (hc : c ≠ '-') :
    parseFloatChars (c :: cs) = parseFloatNat (c :: cs) := by
  unfold parseFloatChars
  split
  · rename_i heq
    exact absurd (List.cons.inj heq).1 hc
  · rfl

theorem parseFloatChars_render_int (k : ℤ) :
    parseFloatChars (intChars k ++ ['.', '0']) = some ((k : ℚ)) := by
  unfold intChars
  split_ifs with hneg
  · rw [List.cons_append, parseFloatChars_neg, parseFloatNat_render]
    show some (-((k.natAbs : ℕ) : ℚ)) = _
    congr 1
    have h2 : ((k.natAbs : ℕ) : ℚ) = -(k : ℚ) := by
      rw [Int.cast_natAbs, abs_of_neg hneg]
      push_cast
      ring
    rw [h2]
    ring
  · cases hnc : natChars k.toNat with
    | nil => exact absurd hnc (natChars_ne_nil _)
    | cons c cs =>
      have hcd : isDigitChar c = true := natChars_digits _ c (hnc ▸ List.mem_cons_self c cs)
      have hcne : c ≠ '-' := by
        intro h
        subst h
        simp [isDigitChar] at hcd
      have hgoal : parseFloatChars ((c :: cs) ++ ['.', '0']) =
          parseFloatNat ((c :: cs) ++ ['.', '0']) := by
        rw [List.cons_append]
        exact parseFloatChars_default c (cs ++ ['.', '0']) hcne
      rw [hgoal, ← hnc, parseFloatNat_render]
      congr 1
      exact_mod_cast congrArg (fun z : ℤ => (z : ℚ)) (Int.toNat_of_nonneg (by omega))

theorem parseNatChars_dot (cs : List Char) (h : '.' ∈ cs) : parseNatChars cs = none := by
  unfold parseNatChars
  rw [if_neg]
  rintro ⟨hne, hall⟩
  have := List.all_eq_true.mp hall '.' h
  simp [isDigitChar] at this

theorem parseIntChars_dot (cs : List Char) (h : '.' ∈ cs) : parseIntChars cs = none := by
  cases cs with
  | nil => simp at h
  | cons c rest =>
    by_cases hc : c = '-'
    · subst hc
      rw [parseIntChars_neg]
      have hrest : '.' ∈ rest := by
        rcases List.mem_cons.mp h with h1 | h1
        · exact absurd h1 (by decide)
        · exact h1
      rw [parseNatChars_dot rest hrest]
      rfl
    · rw [parseIntChars_default c rest hc]
      rw [parseNatChars_dot _ h]
      rfl

/-- The missing-value tokens recognised by the modelled `read_csv` (a core
subset of pandas' default NA list), with the empty field first — `to_csv`
writes `NaN` as the empty field. -/
def naTokens : List (List Char) :=
  [[], ['N', 'A'], ['N', '/', 'A'], ['n', 'u', 'l', 'l'], ['N', 'a', 'N'], ['n', 'a', 'n']]

def isNaToken (cs : List Char) : Bool := naTokens.any (fun t => t = cs)

theorem naTokens_parseInt : ∀ t ∈ naTokens, parseIntChars t = none := by decide

theorem naTokens_parseFloat : ∀ t ∈ naTokens, parseFloatChars t = none := by decide

theorem not_na_of_int (e : List Char) (k : ℤ) (h : parseIntChars e = some k) :
    isNaToken e = false := by
  unfold isNaToken
  rw [List.any_eq_false]
  intro t ht
  simp only [decide_eq_true_eq]
  intro heq
  rw [← heq] at h
  rw [naTokens_parseInt t ht] at h
  exact Option.noConfusion h

theorem not_na_of_float (e : List Char) (q : ℚ) (h : parseFloatChars e = some q) :
    isNaToken e = false := by
  unfold isNaToken
  rw [List.any_eq_false]
  intro t ht
  simp only [decide_eq_true_eq]
  intro heq
  rw [← heq] at h
  rw [naTokens_parseFloat t ht] at h
  exact Option.noConfusion h

theorem isNaToken_nil : isNaToken [] = true := by decide

/-- Rendering of one cell by `to_csv`: missing → empty field; text verbatim
(quoting is applied at line level); integers as digit strings; floats — in
the modelled class, integral-valued — as the integer followed by `.0`,
exactly as pandas prints them. -/
def renderCell (dt : Dtype) (x : Option Val) : List Char :=
  match x with
  | none => []
  | some (.str s) => s.data
  | some (.num q) =>
    match dt with
    | .int64 => intChars q.num
    | _ => intChars q.num ++ ['.', '0']

/-- The cells of row `i`, one per column. -/
def rowCells (df : Table) (i : ℕ) : List (List Char) :=
  df.cols.map (fun c => renderCell c.dtype (c.values.getD i none))

/-- `salvar_dados` (`df.to_csv(caminho, index=False)`): the header record
followed by one record per row. -/
def salvar_dados (df : Table) : List (List Char) :=
  renderLine (df.cols.map (fun c => c.name.data)) ::
    (List.range df.nrows).map (fun i => renderLine (rowCells df i))

/-- Column-type inference of `pd.read_csv` on one column of raw fields:
all-missing → float64 of NaNs; all integer-parsable → int64; all
missing-or-decimal → float64; otherwise text, with NA tokens read as
missing. -/
def inferCol (nm : List Char) (entries : List (List Char)) : Col :=
  if entries.all (fun e => isNaToken e) then
    ⟨⟨nm⟩, .float64, entries.map (fun _ => none)⟩
  else if entries.all (fun e => (parseIntChars e).isSome) then
    ⟨⟨nm⟩, .int64, entries.map (fun e => (parseIntChars e).map (fun k : ℤ => Val.num (k : ℚ)))⟩
  else if entries.all (fun e => isNaToken e || (parseFloatChars e).isSome) then
    ⟨⟨nm⟩, .float64, entries.map (fun e =>
      if isNaToken e then none else (parseFloatChars e).map (fun q => .num q))⟩
  else
    ⟨⟨nm⟩, .obj, entries.map (fun e => if isNaToken e then none else some (.str ⟨e⟩))⟩

/-- `carregar_dados` (`pd.read_csv(caminho)`): first record is the header;
every following record is a row; each column's type and values are inferred
from the raw fields.  An empty file or ragged rows fail (`none`). -/
def carregar_dados (lines : List (List Char)) : Option Table :=
  match lines with
  | [] => none
  | h :: rows =>
    let header := parseLine h
    let parsed := rows.map parseLine
    if parsed.all (fun r => r.length = header.length) then
      some ⟨(List.range header.length).map (fun j =>
        inferCol (header.getD j []) (parsed.map (fun r => r.getD j [])))⟩
    else none

/-- An int64 cell the model round-trips: an integral number (pandas int64
columns cannot hold missing values). -/
def cellIntSafe : Option Val → Bool
  | some (.num q) => q.den = 1
  | _ => false

/-- A float64 cell the model round-trips: missing, or integral-valued (the
modelled printer writes `k.0`; general binary floats are outside the
rational model). -/
def cellFloatSafe : Option Val → Bool
  | none => true
  | some (.num q) => q.den = 1
  | _ => false

/-- A text value that survives `read_csv` unchanged: not an NA token, not
parseable as a number (content-based inference would change the column
type), no newline (record separator), and not a bool literal. -/
def strCellSafe (s : String) : Bool :=
  !(isNaToken s.data) && (parseIntChars s.data).isNone && (parseFloatChars s.data).isNone
    && decide ('\n' ∉ s.data) && decide (s ≠ "True") && decide (s ≠ "False")

def cellObjSafe : Option Val → Bool
  | none => true
  | some (.str s) => strCellSafe s
  | some (.num _) => false

/-- Per-column safety for the round trip, by declared dtype; an object
column needs at least one present value (an all-missing text column reads
back as float64), and pandas `category` dtype never survives a CSV round
trip. -/
def colSafe (n : ℕ) (c : Col) : Bool :=
  decide (c.values.length = n) &&
  (match c.dtype with
   | .int64 => c.values.all cellIntSafe
   | .float64 => c.values.all cellFloatSafe
   | .obj => c.values.any (fun x => x.isSome) && c.values.all cellObjSafe
   | .cat => false)

def nameSafe (s : String) : Bool := decide (s ≠ "") && decide ('\n' ∉ s.data)

def nodupNames : List String → Bool
  | [] => true
  | n :: t => !(memStr n t) && nodupNames t

/-- The class of tables on which the modelled pandas CSV round trip is the
identity: nonempty, well-formed, uniquely and safely named, every cell safe
for its column dtype, and — single-column tables only — no missing values
(a lone empty field would be a blank line, which `read_csv` skips). -/
def csvSafe (df : Table) : Bool :=
  !df.cols.isEmpty && decide (0 < df.nrows) &&
  df.cols.all (fun c => colSafe df.nrows c && nameSafe c.name) &&
  nodupNames (df.cols.map Col.name) &&
  (decide (df.cols.length ≠ 1) || df.cols.all (fun c => c.values.all (fun x => x.isSome)))

theorem map_roundtrip {α : Type} (vals : List α) (f : α → α)
    (h : ∀ x ∈ vals, f x = x) : vals.map f = vals := by
  rw [List.map_congr_left h]
  simp

theorem inferCol_roundtrip (nm : String) (dt : Dtype) (vals : List (Option Val))
    (hne : vals ≠ [])
    (hsafe : colSafe vals.length (⟨nm, dt, vals⟩ : Col) = true) :
    inferCol nm.data (vals.map (renderCell dt)) = ⟨nm, dt, vals⟩ := by
  unfold colSafe at hsafe
  rw [Bool.and_eq_true] at hsafe
  have hsafe2 := hsafe.2
  simp only at hsafe2
  cases dt with
  | cat => exact absurd hsafe2 (by simp)
  | int64 =>
    rw [List.all_eq_true] at hsafe2
    have hcell : ∀ x ∈ vals, ∃ q : ℚ, x = some (.num q) ∧ q.den = 1 := by
      intro x hx
      have := hsafe2 x hx
      match x with
      | some (.num q) => exact ⟨q, rfl, by simpa [cellIntSafe] using this⟩
      | some (.str s) => simp [cellIntSafe] at this
      | none => simp [cellIntSafe] at this
    unfold inferCol
    rw [if_neg ?hna, if_pos ?hint]
    case hna =>
      intro hall
      rw [List.all_eq_true] at hall
      obtain ⟨x0, hx0⟩ := List.exists_mem_of_ne_nil vals hne
      obtain ⟨q0, rfl, hq0⟩ := hcell x0 hx0
      have hmem : renderCell .int64 (some (.num q0)) ∈ vals.map (renderCell .int64) :=
        List.mem_map.mpr ⟨_, hx0, rfl⟩
      have hh := hall _ hmem
      rw [show renderCell .int64 (some (.num q0)) = intChars q0.num from rfl] at hh
      rw [not_na_of_int _ q0.num (parseIntChars_intChars q0.num)] at hh
      exact Bool.noConfusion hh
    case hint =>
      rw [List.all_eq_true]
      intro e he
      obtain ⟨x, hx, rfl⟩ := List.mem_map.mp he
      obtain ⟨q, rfl, hq⟩ := hcell x hx
      rw [show renderCell .int64 (some (.num q)) = intChars q.num from rfl,
        parseIntChars_intChars]
      rfl
    congr 1
    rw [List.map_map]
    apply map_roundtrip
    intro x hx
    obtain ⟨q, rfl, hq⟩ := hcell x hx
    simp only [Function.comp_apply]
    rw [show renderCell Dtype.int64 (some (Val.num q)) = intChars q.num from rfl,
      parseIntChars_intChars]
    show some (Val.num ((q.num : ℤ) : ℚ)) = some (Val.num q)
    rw [Rat.coe_int_num_of_den_eq_one hq]
  | float64 =>
    rw [List.all_eq_true] at hsafe2
    have hcell : ∀ x ∈ vals, x = none ∨ ∃ q : ℚ, x = some (.num q) ∧ q.den = 1 := by
      intro x hx
      have := hsafe2 x hx
      match x with
      | none => exact Or.inl rfl
      | some (.num q) => exact Or.inr ⟨q, rfl, by simpa [cellFloatSafe] using this⟩
      | some (.str s) => simp [cellFloatSafe] at this
    by_cases hall0 : ∀ x ∈ vals, x = none
    · unfold inferCol
      rw [if_pos ?hna]
      case hna =>
        rw [List.all_eq_true]
        intro e he
        obtain ⟨x, hx, rfl⟩ := List.mem_map.mp he
        rw [hall0 x hx]
        exact isNaToken_nil
      congr 1
      rw [List.map_map]
      apply map_roundtrip
      intro x hx
      exact (hall0 x hx).symm
    · push_neg at hall0
      obtain ⟨x0, hx0, hx0ne⟩ := hall0
      obtain hx0' | ⟨q0, rfl, hq0⟩ := hcell x0 hx0
      · exact absurd hx0' hx0ne
      have hrender0 : renderCell .float64 (some (.num q0)) = intChars q0.num ++ ['.', '0'] := rfl
      unfold inferCol
      rw [if_neg ?hna, if_neg ?hint, if_pos ?hfloat]
      case hna =>
        intro hall
        rw [List.all_eq_true] at hall
        have hmem : renderCell .float64 (some (.num q0)) ∈ vals.map (renderCell .float64) :=
          List.mem_map.mpr ⟨_, hx0, rfl⟩
        have hh := hall _ hmem
        rw [hrender0, not_na_of_float _ (q0.num : ℚ) (parseFloatChars_render_int q0.num)] at hh
        exact Bool.noConfusion hh
      case hint =>
        intro hall
        rw [List.all_eq_true] at hall
        have hmem : renderCell .float64 (some (.num q0)) ∈ vals.map (renderCell .float64) :=
          List.mem_map.mpr ⟨_, hx0, rfl⟩
        have hh := hall _ hmem
        rw [hrender0] at hh
        rw [parseIntChars_dot _ (by simp)] at hh
        exact Bool.noConfusion hh
      case hfloat =>
        rw [List.all_eq_true]
        intro e he
        obtain ⟨x, hx, rfl⟩ := List.mem_map.mp he
        obtain rfl | ⟨q, rfl, hq⟩ := hcell x hx
        · rw [show renderCell .float64 none = [] from rfl, isNaToken_nil]
          rfl
        · rw [show renderCell .float64 (some (.num q)) = intChars q.num ++ ['.', '0'] from rfl]
          rw [parseFloatChars_render_int]
          simp
      congr 1
      rw [List.map_map]
      apply map_roundtrip
      intro x hx
      obtain rfl | ⟨q, rfl, hq⟩ := hcell x hx
      · simp only [Function.comp_apply]
        rw [show renderCell Dtype.float64 none = [] from rfl]
        rw [if_pos isNaToken_nil]
      · simp only [Function.comp_apply]
        rw [show renderCell Dtype.float64 (some (Val.num q)) =
          intChars q.num ++ ['.', '0'] from rfl]
        rw [not_na_of_float _ (q.num : ℚ) (parseFloatChars_render_int q.num)]
        rw [if_neg Bool.false_ne_true]
        rw [parseFloatChars_render_int]
        show some (Val.num ((q.num : ℤ) : ℚ)) = some (Val.num q)
        rw [Rat.coe_int_num_of_den_eq_one hq]
  | obj =>
    rw [Bool.and_eq_true] at hsafe2
    obtain ⟨hany, hall⟩ := hsafe2
    rw [List.all_eq_true] at hall
    have hcell : ∀ x ∈ vals, x = none ∨ ∃ s : String, x = some (.str s) ∧ strCellSafe s = true := by
      intro x hx
      have := hall x hx
      match x with
      | none => exact Or.inl rfl
      | some (.str s) => exact Or.inr ⟨s, rfl, by simpa [cellObjSafe] using this⟩
      | some (.num q) => simp [cellObjSafe] at this
    rw [List.any_eq_true] at hany
    obtain ⟨x0, hx0, hx0some⟩ := hany
    obtain rfl | ⟨s0, rfl, hs0⟩ := hcell x0 hx0
    · exact Bool.noConfusion hx0some
    unfold strCellSafe at hs0
    simp only [Bool.and_eq_true, Bool.not_eq_true', Option.isNone_iff_eq_none,
      decide_eq_true_eq] at hs0
    have hmem0 : renderCell .obj (some (.str s0)) ∈ vals.map (renderCell .obj) :=
      List.mem_map.mpr ⟨_, hx0, rfl⟩
    have hrender0 : renderCell .obj (some (.str s0)) = s0.data := rfl
    unfold inferCol
    rw [if_neg ?hna, if_neg ?hint, if_neg ?hfloat]
    case hna =>
      intro h
      rw [List.all_eq_true] at h
      have hh := h _ hmem0
      rw [hrender0, hs0.1.1.1.1.1] at hh
      exact Bool.noConfusion hh
    case hint =>
      intro h
      rw [List.all_eq_true] at h
      have hh := h _ hmem0
      rw [hrender0, hs0.1.1.1.1.2] at hh
      exact Bool.noConfusion hh
    case hfloat =>
      intro h
      rw [List.all_eq_true] at h
      have hh := h _ hmem0
      rw [hrender0, hs0.1.1.1.1.1, hs0.1.1.1.2] at hh
      exact Bool.noConfusion hh
    congr 1
    rw [List.map_map]
    apply map_roundtrip
    intro x hx
    obtain rfl | ⟨s, rfl, hs⟩ := hcell x hx
    · simp only [Function.comp_apply]
      rw [show renderCell Dtype.obj none = [] from rfl]
      rw [if_pos isNaToken_nil]
    · unfold strCellSafe at hs
      simp only [Bool.and_eq_true, Bool.not_eq_true', Option.isNone_iff_eq_none,
        decide_eq_true_eq] at hs
      simp only [Function.comp_apply]
      rw [show renderCell Dtype.obj (some (Val.str s)) = s.data from rfl, hs.1.1.1.1.1]
      rfl

theorem inferCol_roundtrip_col (c : Col) (hne : c.values ≠ [])
    (hsafe : colSafe c.values.length c = true) :
    inferCol c.name.data (c.values.map (renderCell c.dtype)) = c := by
  obtain ⟨nm, dt, vals⟩ := c
  exact inferCol_roundtrip nm dt vals hne hsafe

theorem carregar_cons (h : List Char) (rows : List (List Char)) :
    carregar_dados (h :: rows) =
      (if (rows.map parseLine).all (fun r => r.length = (parseLine h).length) then
        some ⟨(List.range (parseLine h).length).map (fun j =>
          inferCol ((parseLine h).getD j []) ((rows.map parseLine).map (fun r => r.getD j [])))⟩
      else none) := rfl

theorem getD_map_lt {α β : Type} (l : List α) (f : α → β) (j : ℕ) (hj : j < l.length)
    (d : β) (d' : α) : (l.map f).getD j d = f (l.getD j d') := by
  rw [List.getD_eq_getElem?_getD, List.getElem?_map, List.getD_eq_getElem?_getD,
    List.getElem?_eq_getElem hj]
  simp

theorem range_map_getD {α β : Type} (l : List α) (f : α → β) (d : α) :
    (List.range l.length).map (fun i => f (l.getD i d)) = l.map f := by
  apply List.ext_getElem
  · simp
  · intro i h1 h2
    simp only [List.getElem_map, List.getElem_range]
    rw [List.getD_eq_getElem]

/-- Claim C9 (amended): saving a table with `salvar_dados` and loading the
written file with `carregar_dados` yields an identical table — same column
names, dtypes, row order and values — for every table in the `csvSafe`
class: unique, nonempty column names; integer-valued numeric cells; text
cells that are nonempty, not NA tokens, not parseable as numbers, and free
of newlines; at least one present value per text column.  The identity does
NOT extend to every table, because `read_csv` re-infers column types from
content (see the type-change counterexample). -/
theorem salvar_carregar_roundtrip (df : Table) (hsafe : csvSafe df = true) :
    carregar_dados (salvar_dados df) = some df := by
  unfold csvSafe at hsafe
  simp only [Bool.and_eq_true] at hsafe
  obtain ⟨⟨⟨⟨h1, h2⟩, h3⟩, h4⟩, h5⟩ := hsafe
  have hcols_ne : df.cols ≠ [] := by
    intro h
    rw [h] at h1
    simp at h1
  have hn : 0 < df.nrows := of_decide_eq_true h2
  rw [List.all_eq_true] at h3
  have hcolsafe : ∀ c ∈ df.cols, colSafe df.nrows c = true := by
    intro c hc
    have := h3 c hc
    rw [Bool.and_eq_true] at this
    exact this.1
  have hheader : parseLine (renderLine (df.cols.map (fun c => c.name.data))) =
      df.cols.map (fun c => c.name.data) := by
    apply parseLine_renderLine
    intro h
    exact hcols_ne (List.map_eq_nil_iff.mp h)
  show carregar_dados (renderLine (df.cols.map (fun c => c.name.data)) ::
    (List.range df.nrows).map (fun i => renderLine (rowCells df i))) = some df
  rw [carregar_cons, hheader]
  have hparsed : ((List.range df.nrows).map (fun i => renderLine (rowCells df i))).map parseLine
      = (List.range df.nrows).map (fun i => rowCells df i) := by
    rw [List.map_map]
    apply List.map_congr_left
    intro i hi
    simp only [Function.comp_apply]
    apply parseLine_renderLine
    intro h
    exact hcols_ne (List.map_eq_nil_iff.mp h)
  rw [hparsed]
  rw [if_pos ?hcond]
  case hcond =>
    rw [List.all_eq_true]
    intro r hr
    obtain ⟨i, hi, rfl⟩ := List.mem_map.mp hr
    simp [rowCells]
  congr 1
  congr 1
  apply List.ext_getElem
  · simp
  · intro j hj1 hj2
    have hjc : j < df.cols.length := by simpa using hj2
    simp only [List.getElem_map, List.getElem_range]
    have hname : (df.cols.map (fun c => c.name.data)).getD j [] =
        (df.cols[j]).name.data := by
      rw [getD_map_lt df.cols _ j hjc [] df.cols[j]]
      rw [List.getD_eq_getElem df.cols _ hjc]
    have hentries : ((List.range df.nrows).map (fun i => rowCells df i)).map
        (fun r => r.getD j []) =
        (df.cols[j]).values.map (renderCell (df.cols[j]).dtype) := by
      rw [List.map_map]
      have hstep : ((fun r => r.getD j []) ∘ fun i => rowCells df i) =
          fun i => renderCell (df.cols[j]).dtype ((df.cols[j]).values.getD i none) := by
        funext i
        simp only [Function.comp_apply]
        unfold rowCells
        rw [getD_map_lt df.cols _ j hjc [] df.cols[j]]
        rw [List.getD_eq_getElem df.cols _ hjc]
      rw [hstep]
      have hvlen : (df.cols[j]).values.length = df.nrows := by
        have := hcolsafe df.cols[j] (List.getElem_mem hjc)
        unfold colSafe at this
        rw [Bool.and_eq_true] at this
        exact of_decide_eq_true this.1
      rw [← hvlen]
      exact range_map_getD _ _ _
    rw [hname, hentries]
    apply inferCol_roundtrip_col
    · intro h
      have hvlen : (df.cols[j]).values.length = df.nrows := by
        have := hcolsafe df.cols[j] (List.getElem_mem hjc)
        unfold colSafe at this
        rw [Bool.and_eq_true] at this
        exact of_decide_eq_true this.1
      rw [h] at hvlen
      simp at hvlen
      omega
    · have hvlen : (df.cols[j]).values.length = df.nrows := by
        have := hcolsafe df.cols[j] (List.getElem_mem hjc)
        unfold colSafe at this
        rw [Bool.and_eq_true] at this
        exact of_decide_eq_true this.1
      rw [hvlen]
      exact hcolsafe df.cols[j] (List.getElem_mem hjc)

/-- Claim C9 counterexample: the save/load round trip is NOT the identity on
every table.  A text column whose single value is the string "1" is written
as the bare field `1`, and `read_csv`'s content-based type inference (spec
§6: "column types inferred from content") reads it back as an integer
column: the dtype and the value representation change. -/
theorem salvar_carregar_type_change_cex :
    carregar_dados (salvar_dados ⟨[⟨"t", .obj, [some (.str "1")]⟩]⟩) =
      some ⟨[⟨"t", .int64, [some (.num 1)]⟩]⟩ ∧
    (⟨[⟨"t", .int64, [some (.num 1)]⟩]⟩ : Table) ≠ ⟨[⟨"t", .obj, [some (.str "1")]⟩]⟩ := by
  constructor
  · decide
  · decide

/-- The spec's round-trip scenario table: a numeric column with a negative
number and a missing value, and a text column with an embedded comma. -/
def dfScenario : Table :=
  ⟨[⟨"n", .float64, [some (.num (-5)), none, some (.num 3)]⟩,
    ⟨"t", .obj, [some (.str "a,b"), some (.str "x"), some (.str "y")]⟩]⟩

/-- Witness for claim C9 (amended): the scenario table — containing a
missing value, a negative number and a comma-embedded text field — is in the
safe class and round-trips exactly. -/
theorem salvar_carregar_roundtrip_witness :
    carregar_dados (salvar_dados dfScenario) = some dfScenario :=
  salvar_carregar_roundtrip dfScenario (by decide)
